import Mathlib

/-!
Shallow embedding of the urban_splash_ftp quality-control and fusion core
(processor/qc_checks.py, taltech_code/engine/src/qc_engine.py,
ftp_server/processor/maintenance.py, data_combiner/combiner.py,
processor/coliminder_merge.py), together with theorems checking the
specification claims against it.

Numeric cell values are modelled as rationals (Python floats in the source),
timestamps as integers (seconds), and raw cells by the results of the parsing
primitives is_missing / to_float / count_decimals applied to the raw text.
-/

namespace UrbanSplash

/-- Flag string PASS (qc_checks.py line 11). -/
def PASS : String := "PASS"

/-- Flag string FAIL (qc_checks.py line 12). -/
def FAIL : String := "FAIL"

/-- Parsed view of one raw CSV cell, as qc_checks.py computes it per row:
the result of is_missing on the raw value, the result of to_float
(none when missing or unparseable), the result of count_decimals, and the
stripped raw text used by the allowed_values comparison. -/
structure Cell where
  missing : Bool
  numeric : Option ℚ
  decimals : Nat
  text : String
  deriving DecidableEq

/-- Rule attributes of one parameter (config.py ParameterConfig.rules, with
the keys read by qc_checks.py). -/
structure Rules where
  numericRequired : Bool := false
  allowNulls : Bool := false
  decimalMax : Option Nat := none
  minValue : Option ℚ := none
  maxValue : Option ℚ := none
  nonnegativeRequired : Bool := false
  maxDeltaPerStep : Option ℚ := none
  streakThreshold : Option Nat := none
  allowedValues : Option (List String) := none
  deriving DecidableEq

/-- The global check toggles (config checks map; absent keys read as False via
global_checks.get(name, False)). -/
structure GlobalChecks where
  numeric : Bool := false
  completeness : Bool := false
  format : Bool := false
  range : Bool := false
  nonnegative : Bool := false
  spike : Bool := false
  flatline : Bool := false
  deriving DecidableEq

/-- One parameter definition: canonical key plus rule attributes. -/
structure Param where
  key : String
  rules : Rules
  deriving DecidableEq

/-- The nine check kinds evaluated by qc_checks.py (the timestamp format check
is handled outside evaluate_parameter and does not emit a flag column). -/
inductive Check where
  | numeric
  | completeness
  | format
  | range
  | nonnegative
  | spike
  | flatline
  | allowedValues
  deriving DecidableEq

/-- Python truthiness of the streak_threshold rule value: present and nonzero. -/
def streakTruthy : Option Nat → Bool
  | none => false
  | some n => n != 0

/-- applicable_checks (qc_checks.py lines 74-95): which checks run for a
parameter, in the fixed order the source appends them. -/
def applicable_checks (r : Rules) (g : GlobalChecks) : List Check :=
  (if g.numeric && r.numericRequired then [Check.numeric] else []) ++
  (if g.completeness && !r.allowNulls then [Check.completeness] else []) ++
  (if g.format && r.decimalMax.isSome then [Check.format] else []) ++
  (if g.range && (r.minValue.isSome || r.maxValue.isSome) then [Check.range] else []) ++
  (if g.nonnegative && r.nonnegativeRequired then [Check.nonnegative] else []) ++
  (if g.spike && r.maxDeltaPerStep.isSome then [Check.spike] else []) ++
  (if g.flatline && streakTruthy r.streakThreshold then [Check.flatline] else []) ++
  (if r.allowedValues.isSome then [Check.allowedValues] else [])

/-- The spike branch of evaluate_parameter (qc_checks.py lines 157-171) for one
row: given the max_delta_per_step rule value, the previous_numeric state and
the numeric value of the row, produce the flag and the new previous_numeric.
A missing or non-numeric row, or an unusable threshold, yields PASS and leaves
the reference untouched. -/
def spikeStep (maxDelta : Option ℚ) (prev : Option ℚ) (v : Option ℚ) : String × Option ℚ :=
  match v with
  | none => (PASS, prev)
  | some x =>
    match maxDelta with
    | none => (PASS, prev)
    | some t =>
      match prev with
      | none => (PASS, some x)
      | some p => (if |x - p| > t then FAIL else PASS, some x)

/-- The flatline branch of evaluate_parameter (qc_checks.py lines 172-185) for
one row: given the streak_threshold rule value, the last_value and streak_count
state and the numeric value of the row, produce the flag and the new state. -/
def flatlineStep (thr : Option Nat) (last : Option ℚ) (count : Nat) (v : Option ℚ) :
    String × Option ℚ × Nat :=
  match v with
  | none => (PASS, none, 0)
  | some x =>
    let c := if last = some x then count + 1 else 1
    ((if streakTruthy thr && decide (thr.getD 0 ≤ c) then FAIL else PASS), some x, c)

/-- The range branch of evaluate_parameter (qc_checks.py lines 143-151): FAIL
when the numeric value is below min_value or above max_value (each bound only
when set); a missing or non-numeric value yields PASS only when missing_ok. -/
def range_flag (minV maxV : Option ℚ) (missingOk : Bool) (v : Option ℚ) : String :=
  match v with
  | none => if missingOk then PASS else FAIL
  | some x =>
    let tooLow := match minV with
      | some m => decide (x < m)
      | none => false
    let tooHigh := match maxV with
      | some m => decide (m < x)
      | none => false
    if tooLow || tooHigh then FAIL else PASS

/-- Cross-row mutable state of evaluate_parameter (qc_checks.py lines 111-115). -/
structure EvalState where
  lastValue : Option ℚ := none
  streakCount : Nat := 0
  previousNumeric : Option ℚ := none
  deriving DecidableEq

def initState : EvalState := {}

/-- One check of the per-row elif chain of evaluate_parameter
(qc_checks.py lines 131-205): the flag for this check and the updated state. -/
def runCheck (toFloat : String → Option ℚ) (r : Rules) (missingOk : Bool)
    (st : EvalState) (cell : Cell) : Check → String × EvalState
  | Check.completeness => (if !cell.missing || missingOk then PASS else FAIL, st)
  | Check.numeric => (if cell.numeric.isSome || missingOk then PASS else FAIL, st)
  | Check.format =>
    match cell.numeric with
    | none => (if missingOk then PASS else FAIL, st)
    | some _ => (if cell.decimals ≤ r.decimalMax.getD 0 then PASS else FAIL, st)
  | Check.range => (range_flag r.minValue r.maxValue missingOk cell.numeric, st)
  | Check.nonnegative =>
    match cell.numeric with
    | none => (if missingOk then PASS else FAIL, st)
    | some x => (if 0 ≤ x then PASS else FAIL, st)
  | Check.spike =>
    let fp := spikeStep r.maxDeltaPerStep st.previousNumeric cell.numeric
    (fp.1, { st with previousNumeric := fp.2 })
  | Check.flatline =>
    let fc := flatlineStep r.streakThreshold st.lastValue st.streakCount cell.numeric
    (fc.1, { st with lastValue := fc.2.1, streakCount := fc.2.2 })
  | Check.allowedValues =>
    if cell.missing then (if missingOk then PASS else FAIL, st)
    else
      let allowed := r.allowedValues.getD []
      let ok := allowed.any fun a =>
        a == cell.text ||
          (match toFloat cell.text, toFloat a with
           | some x, some y => x == y
           | _, _ => false)
      (if ok then PASS else FAIL, st)

/-- The full per-row loop body over checks_to_run: the list of flags of the
row (in checks_to_run order) and the state after the row. -/
def runChecksRow (toFloat : String → Option ℚ) (r : Rules) (missingOk : Bool)
    (st : EvalState) (cell : Cell) : List Check → List String × EvalState
  | [] => ([], st)
  | c :: cs =>
    let f := runCheck toFloat r missingOk st cell c
    let rest := runChecksRow toFloat r missingOk f.2 cell cs
    (f.1 :: rest.1, rest.2)

/-- The row iteration of evaluate_parameter (qc_checks.py lines 117-210):
per-row flag lists (row major, in checks_to_run order) and the qc flag list.
The metadata row gets empty flags and resets the cross-row state. -/
def evalRows (toFloat : String → Option ℚ) (r : Rules) (missingOk : Bool)
    (checks : List Check) (metaIdx : Option Nat) :
    Nat → EvalState → List Cell → List (List String) × List String
  | _, _, [] => ([], [])
  | i, st, cell :: rest =>
    if metaIdx = some i then
      let tail := evalRows toFloat r missingOk checks metaIdx (i + 1) initState rest
      ((checks.map fun _ => "") :: tail.1, "" :: tail.2)
    else
      let row := runChecksRow toFloat r missingOk st cell checks
      let qc := if row.1.contains FAIL then FAIL else PASS
      let tail := evalRows toFloat r missingOk checks metaIdx (i + 1) row.2 rest
      (row.1 :: tail.1, qc :: tail.2)

/-- Flag column names emitted for a parameter, in checks_to_run order. -/
def checkName : Check → String
  | Check.numeric => "numeric"
  | Check.completeness => "completeness"
  | Check.format => "format"
  | Check.range => "range"
  | Check.nonnegative => "nonnegative"
  | Check.spike => "spike"
  | Check.flatline => "flatline"
  | Check.allowedValues => "allowed_values"

def flagColName (key : String) (c : Check) : String :=
  key ++ "_" ++ checkName c ++ "_flag"

/-- Transpose the row-major flag lists into named flag columns, mirroring the
flag_columns dict of evaluate_parameter. -/
def columnsOf (names : List String) (rows : List (List String)) :
    List (String × List String) :=
  (List.range names.length).map fun j =>
    (names.getD j "", rows.map fun fr => fr.getD j "")

/-- evaluate_parameter (qc_checks.py lines 98-212), with the same argument
order as the source and the same missing_ok default. The series is the
parsed view of the resolved raw column. Returns the named flag columns and
the per-parameter qc flag list. -/
def evaluate_parameter (toFloat : String → Option ℚ) (series : List Cell)
    (p : Param) (g : GlobalChecks) (metaIdx : Option Nat)
    (missingOk : Bool := false) : List (String × List String) × List String :=
  let checks := applicable_checks p.rules g
  let out := evalRows toFloat p.rules missingOk checks metaIdx 0 initState series
  (columnsOf (checks.map (flagColName p.key)) out.1, out.2)

/-- The spike branch iterated over a whole series of numeric values, threading
previous_numeric exactly as the evaluate_parameter loop does (no metadata row). -/
def spike_flags (maxDelta : Option ℚ) : Option ℚ → List (Option ℚ) → List String
  | _, [] => []
  | prev, v :: vs =>
    let f := spikeStep maxDelta prev v
    f.1 :: spike_flags maxDelta f.2 vs

/-- The flatline branch iterated over a whole series of numeric values,
threading last_value and streak_count exactly as the evaluate_parameter loop
does (no metadata row). -/
def flatline_flags (thr : Option Nat) : Option ℚ → Nat → List (Option ℚ) → List String
  | _, _, [] => []
  | last, count, v :: vs =>
    let f := flatlineStep thr last count v
    f.1 :: flatline_flags thr f.2.1 f.2.2 vs

/-- Specification-side reference value for the spike check: the last valid
numeric value of the series (missing and non-numeric entries never update it),
folded from an initial reference. -/
def lastNumericStep (acc : Option ℚ) (v : Option ℚ) : Option ℚ :=
  match v with
  | some x => some x
  | none => acc

def lastNumericFrom (prev : Option ℚ) (vals : List (Option ℚ)) : Option ℚ :=
  vals.foldl lastNumericStep prev

/-- Specification-side spike flag (spec section 4.2 and section 8): FAIL iff a
previous valid numeric value exists and the jump from it exceeds the threshold;
PASS when the row is missing or non-numeric or no previous valid value exists. -/
def specSpikeFlag (t : ℚ) (vals : List (Option ℚ)) (i : Nat) : String :=
  match vals.getD i none, lastNumericFrom none (vals.take i) with
  | some v, some v0 => if |v - v0| > t then FAIL else PASS
  | _, _ => PASS

theorem spike_flags_length (maxDelta : Option ℚ) (prev : Option ℚ)
    (vals : List (Option ℚ)) : (spike_flags maxDelta prev vals).length = vals.length := by
  induction vals generalizing prev with
  | nil => rfl
  | cons v vs ih => simp [spike_flags, ih]

theorem spike_flags_getD (t : ℚ) (vals : List (Option ℚ)) (prev : Option ℚ)
    (i : Nat) (hi : i < vals.length) :
    (spike_flags (some t) prev vals).getD i "" =
      match vals.getD i none, lastNumericFrom prev (vals.take i) with
      | some v, some v0 => if |v - v0| > t then FAIL else PASS
      | _, _ => PASS := by
  induction vals generalizing prev i with
  | nil => simp at hi
  | cons v vs ih =>
    cases i with
    | zero =>
      simp only [spike_flags, List.getD, List.get?, List.take, lastNumericFrom, List.foldl]
      cases v with
      | none => simp [spikeStep]
      | some x =>
        cases prev with
        | none => simp [spikeStep]
        | some p => simp [spikeStep]
    | succ j =>
      have hj : j < vs.length := by simpa using hi
      have hstep : (spikeStep (some t) prev v).2 = lastNumericStep prev v := by
        cases v with
        | none => rfl
        | some x => cases prev <;> rfl
      have hfold : lastNumericFrom prev (v :: vs.take j) =
          lastNumericFrom (spikeStep (some t) prev v).2 (vs.take j) := by
        simp only [lastNumericFrom, List.foldl_cons]
        rw [hstep]
      simp only [spike_flags, List.getD_cons_succ, List.take_succ_cons]
      rw [ih (spikeStep (some t) prev v).2 j hj, hfold]

/-- C3: for every parameter with max_delta_per_step = t and every row sequence,
the spike flag at a numeric value v1 is FAIL iff a previous valid numeric value
v0 exists and the absolute difference exceeds t (PASS when no previous valid
value exists yet); a missing or non-numeric row receives PASS and does not
update the reference used for the next comparison. -/
theorem c3_spike_flag (t : ℚ) (vals : List (Option ℚ)) (i : Nat)
    (hi : i < vals.length) :
    (spike_flags (some t) none vals).getD i "" = specSpikeFlag t vals i := by
  exact spike_flags_getD t vals none i hi

/-- Witness for C3 at a concrete series: values 1, missing, 7 with threshold 5
give FAIL at index 2 (reference value 1 survives the missing row). -/
theorem c3_spike_flag_witness :
    2 < [some (1 : ℚ), none, some 7].length ∧
      (spike_flags (some (5 : ℚ)) none [some (1 : ℚ), none, some 7]).getD 2 "" =
        specSpikeFlag 5 [some (1 : ℚ), none, some 7] 2 :=
  ⟨by decide, c3_spike_flag 5 [some (1 : ℚ), none, some 7] 2 (by decide)⟩

/-- State part of the flatline branch: the last_value and streak_count update
performed by qc_checks.py lines 173-182 on one row. -/
def flatStateStep (s : Option ℚ × Nat) (v : Option ℚ) : Option ℚ × Nat :=
  match v with
  | none => (none, 0)
  | some x => (some x, if s.1 = some x then s.2 + 1 else 1)

theorem flatlineStep_state (thr : Option Nat) (l : Option ℚ) (c : Nat) (v : Option ℚ) :
    (flatlineStep thr l c v).2 = flatStateStep (l, c) v := by
  cases v <;> rfl

theorem flatStateStep_fst (s : Option ℚ × Nat) (v : Option ℚ) :
    (flatStateStep s v).1 = v := by
  cases v <;> rfl

theorem getD_take_of_lt {α : Type _} (l : List α) (d : α) (n i : Nat) (h : i < n) :
    (l.take n).getD i d = l.getD i d := by
  induction l generalizing n i with
  | nil => simp
  | cons a as ih =>
    cases n with
    | zero => omega
    | succ m =>
      cases i with
      | zero => simp
      | succ j =>
        simp only [List.take_succ_cons, List.getD_cons_succ]
        exact ih m j (by omega)

theorem take_succ_getD {α : Type _} (l : List α) (d : α) (i : Nat) (h : i < l.length) :
    l.take (i + 1) = l.take i ++ [l.getD i d] := by
  induction l generalizing i with
  | nil => simp at h
  | cons a as ih =>
    cases i with
    | zero => simp
    | succ j =>
      have hj : j < as.length := by simpa using h
      simp [List.take_succ_cons, ih j hj]

theorem flatline_flags_getD (thr : Option Nat) (vals : List (Option ℚ))
    (last : Option ℚ) (count : Nat) (i : Nat) (hi : i < vals.length) :
    (flatline_flags thr last count vals).getD i "" =
      (flatlineStep thr (List.foldl flatStateStep (last, count) (vals.take i)).1
        (List.foldl flatStateStep (last, count) (vals.take i)).2
        (vals.getD i none)).1 := by
  induction vals generalizing last count i with
  | nil => simp at hi
  | cons v vs ih =>
    cases i with
    | zero => simp [flatline_flags]
    | succ j =>
      have hj : j < vs.length := by simpa using hi
      have hstate : (flatlineStep thr last count v).2 = flatStateStep (last, count) v :=
        flatlineStep_state thr last count v
      simp only [flatline_flags, List.getD_cons_succ, List.take_succ_cons, List.foldl_cons]
      rw [ih (flatlineStep thr last count v).2.1 (flatlineStep thr last count v).2.2 j hj]
      rw [hstate]

theorem foldl_flatState_fst (s : Option ℚ × Nat) (l : List (Option ℚ)) (hl : l ≠ []) :
    (List.foldl flatStateStep s l).1 = l.getD (l.length - 1) none := by
  induction l generalizing s with
  | nil => exact absurd rfl hl
  | cons v vs ih =>
    cases vs with
    | nil => simp [flatStateStep_fst]
    | cons w ws =>
      rw [List.foldl_cons, ih (flatStateStep s v) (by simp)]
      simp

theorem foldl_flatState_count (p : List (Option ℚ)) (n : Nat) (x : ℚ) (hn : 0 < n)
    (hne : p ≠ []) (hlast : p.getD (p.length - 1) none = some x) :
    n ≤ (List.foldl flatStateStep (none, 0) p).2 ↔
      n ≤ p.length ∧ ∀ j, p.length - n ≤ j → j < p.length → p.getD j none = some x := by
  induction p using List.reverseRecOn generalizing n x with
  | nil => exact absurd rfl hne
  | append_singleton q v ihq =>
    have hv : v = some x := by
      have hlen : (q ++ [v]).length - 1 = q.length := by simp
      rw [hlen, List.getD_append_right q [v] none q.length (le_refl _)] at hlast
      simpa using hlast
    subst hv
    have hcount : (List.foldl flatStateStep (none, 0) (q ++ [some x])).2 =
        if (List.foldl flatStateStep ((none : Option ℚ), 0) q).1 = some x
        then (List.foldl flatStateStep ((none : Option ℚ), 0) q).2 + 1 else 1 := by
      rw [List.foldl_append]
      rfl
    have hplen : (q ++ [some x]).length = q.length + 1 := by simp
    have hgetq : ∀ j, j < q.length → (q ++ [some x]).getD j none = q.getD j none :=
      fun j hj => List.getD_append q [some x] none j hj
    have hgetv : (q ++ [some x]).getD q.length none = some x := by
      rw [List.getD_append_right q [some x] none q.length (le_refl _)]
      simp
    rcases eq_or_ne q [] with hq | hq
    · subst hq
      have hc1 : (List.foldl flatStateStep ((none : Option ℚ), 0) ([] ++ [some x])).2 = 1 := by
        simp [flatStateStep]
      rw [hc1]
      constructor
      · intro hle
        have hn1 : n = 1 := by omega
        subst hn1
        refine ⟨by simp, fun j h1 h2 => ?_⟩
        have hj0 : j = 0 := by simp at h2; omega
        subst hj0
        simp
      · intro h
        have := h.1
        simp at this
        omega
    · have hfst : (List.foldl flatStateStep ((none : Option ℚ), 0) q).1 =
          q.getD (q.length - 1) none := foldl_flatState_fst _ q hq
      have hqlen : 0 < q.length := List.length_pos.mpr hq
      rcases eq_or_ne (q.getD (q.length - 1) none) (some x) with heq | hne2
      · -- the run extends into q
        rw [hcount, hfst, heq, if_pos rfl]
        rcases eq_or_ne n 1 with hn1 | hn1
        · subst hn1
          constructor
          · intro _
            refine ⟨by simp, fun j h1 h2 => ?_⟩
            have hje : j = q.length := by simp at h1 h2; omega
            subst hje
            exact hgetv
          · intro _; omega
        · have hn2 : 2 ≤ n := by omega
          have ihx := ihq (n - 1) x (by omega) hq heq
          constructor
          · intro hle
            have hle2 : n - 1 ≤ (List.foldl flatStateStep ((none : Option ℚ), 0) q).2 := by
              omega
            obtain ⟨h1, h2⟩ := ihx.mp hle2
            refine ⟨by simp; omega, fun j hj1 hj2 => ?_⟩
            rcases eq_or_ne j q.length with hje | hjne
            · subst hje; exact hgetv
            · have hjlt : j < q.length := by simp at hj2; omega
              rw [hgetq j hjlt]
              exact h2 j (by simp at hj1; omega) hjlt
          · intro h
            obtain ⟨h1, h2⟩ := h
            have hq1 : n - 1 ≤ q.length := by simp at h1; omega
            have hle2 : n - 1 ≤ (List.foldl flatStateStep ((none : Option ℚ), 0) q).2 := by
              apply ihx.mpr
              refine ⟨hq1, fun j hj1 hj2 => ?_⟩
              rw [← hgetq j hj2]
              exact h2 j (by simp; omega) (by simp; omega)
            omega
      · -- the run is broken just before v
        rw [hcount, hfst, if_neg hne2]
        constructor
        · intro hle
          have hn1 : n = 1 := by omega
          subst hn1
          refine ⟨by simp, fun j h1 h2 => ?_⟩
          have : j = q.length := by simp at h1 h2; omega
          subst this
          exact hgetv
        · intro ⟨h1, h2⟩
          by_contra hgt
          have hn2 : 2 ≤ n := by omega
          have hj1 : (q ++ [some x]).length - n ≤ q.length - 1 := by simp at h1 ⊢; omega
          have hj2 : q.length - 1 < (q ++ [some x]).length := by simp; omega
          have := h2 (q.length - 1) hj1 hj2
          rw [hgetq (q.length - 1) (by omega)] at this
          exact hne2 this

/-- C4: for every parameter with streak_threshold = n and every row sequence,
the flatline flag is FAIL exactly on rows where an unbroken run of identical
numeric values has reached length n (the last n entries ending at the row are
all the same numeric value), PASS on all earlier rows of the run; the run
resets on a differing numeric value or a missing value. -/
theorem c4_flatline_flag (n : Nat) (hn : 0 < n) (vals : List (Option ℚ)) (i : Nat)
    (hi : i < vals.length) :
    ((flatline_flags (some n) none 0 vals).getD i "" = FAIL ↔
      ∃ x, vals.getD i none = some x ∧ n ≤ i + 1 ∧
        ∀ j, i + 1 - n ≤ j → j ≤ i → vals.getD j none = some x) ∧
    ((flatline_flags (some n) none 0 vals).getD i "" = FAIL ∨
      (flatline_flags (some n) none 0 vals).getD i "" = PASS) := by
  rw [flatline_flags_getD (some n) vals none 0 i hi]
  cases hv : vals.getD i none with
  | none =>
    have hpass : (flatlineStep (some n)
        (List.foldl flatStateStep ((none : Option ℚ), 0) (vals.take i)).1
        (List.foldl flatStateStep ((none : Option ℚ), 0) (vals.take i)).2 none).1 = PASS := rfl
    rw [hpass]
    refine ⟨⟨fun h => absurd h (by decide), ?_⟩, Or.inr rfl⟩
    rintro ⟨y, hy, -⟩
    exact absurd hy (by simp)
  | some x =>
    have hsucc : i + 1 ≤ vals.length := hi
    have htake : vals.take (i + 1) = vals.take i ++ [some x] := by
      rw [take_succ_getD vals none i hi, hv]
    have hptake : (vals.take (i + 1)).length = i + 1 := by
      simp [List.length_take]
      omega
    have hcnt : (List.foldl flatStateStep ((none : Option ℚ), 0) (vals.take (i + 1))).2 =
        (flatStateStep (List.foldl flatStateStep ((none : Option ℚ), 0) (vals.take i))
          (some x)).2 := by
      rw [htake, List.foldl_append]
      rfl
    have hlastp : (vals.take (i + 1)).getD ((vals.take (i + 1)).length - 1) none = some x := by
      rw [hptake]
      simp only [Nat.add_sub_cancel]
      rw [getD_take_of_lt vals none (i + 1) i (by omega), hv]
    have hnep : vals.take (i + 1) ≠ [] := by
      intro hc
      rw [hc] at hptake
      simp at hptake
    have hchar := foldl_flatState_count (vals.take (i + 1)) n x hn hnep hlastp
    rw [hptake] at hchar
    have hcond : ∀ j, j < i + 1 → (vals.take (i + 1)).getD j none = vals.getD j none :=
      fun j hj => getD_take_of_lt vals none (i + 1) j hj
    -- the flag in terms of the streak count
    have hflag : (flatlineStep (some n)
        (List.foldl flatStateStep ((none : Option ℚ), 0) (vals.take i)).1
        (List.foldl flatStateStep ((none : Option ℚ), 0) (vals.take i)).2 (some x)).1 =
        if n ≤ (List.foldl flatStateStep ((none : Option ℚ), 0) (vals.take (i + 1))).2
        then FAIL else PASS := by
      rw [hcnt]
      simp only [flatlineStep, flatStateStep, streakTruthy]
      have : (n != 0) = true := by simpa using Nat.pos_iff_ne_zero.mp hn
      simp [this]
    rw [hflag]
    constructor
    · constructor
      · intro h
        have hle : n ≤ (List.foldl flatStateStep ((none : Option ℚ), 0)
            (vals.take (i + 1))).2 := by
          by_contra hc
          rw [if_neg hc] at h
          exact absurd h (by decide)
        obtain ⟨h1, h2⟩ := hchar.mp hle
        refine ⟨x, rfl, h1, fun j hj1 hj2 => ?_⟩
        rw [← hcond j (by omega)]
        exact h2 j hj1 (by omega)
      · rintro ⟨y, hy, h1, h2⟩
        have hxy : x = y := by injection hy
        subst hxy
        have hle : n ≤ (List.foldl flatStateStep ((none : Option ℚ), 0)
            (vals.take (i + 1))).2 := by
          apply hchar.mpr
          refine ⟨h1, fun j hj1 hj2 => ?_⟩
          rw [hcond j hj2]
          exact h2 j hj1 (by omega)
        rw [if_pos hle]
    · by_cases hle : n ≤ (List.foldl flatStateStep ((none : Option ℚ), 0)
          (vals.take (i + 1))).2
      · left; rw [if_pos hle]
      · right; rw [if_neg hle]

/-- Witness for C4 at a concrete series: threshold 2 over values 3, 3, 4 gives
FAIL at index 1 where the run of equal values reaches length 2. -/
theorem c4_flatline_flag_witness :
    0 < 2 ∧ 1 < [some (3 : ℚ), some 3, some 4].length ∧
      (((flatline_flags (some 2) none 0 [some (3 : ℚ), some 3, some 4]).getD 1 "" = FAIL ↔
        ∃ x, [some (3 : ℚ), some 3, some 4].getD 1 none = some x ∧ 2 ≤ 1 + 1 ∧
          ∀ j, 1 + 1 - 2 ≤ j → j ≤ 1 → [some (3 : ℚ), some 3, some 4].getD j none = some x) ∧
      ((flatline_flags (some 2) none 0 [some (3 : ℚ), some 3, some 4]).getD 1 "" = FAIL ∨
        (flatline_flags (some 2) none 0 [some (3 : ℚ), some 3, some 4]).getD 1 "" = PASS)) :=
  ⟨by decide, by decide, c4_flatline_flag 2 (by decide) [some (3 : ℚ), some 3, some 4] 1 (by decide)⟩

instance : Inhabited Cell := ⟨⟨false, none, 0, ""⟩⟩

theorem runChecksRow_length (toFloat : String → Option ℚ) (r : Rules) (missingOk : Bool)
    (st : EvalState) (cell : Cell) (checks : List Check) :
    (runChecksRow toFloat r missingOk st cell checks).1.length = checks.length := by
  induction checks generalizing st with
  | nil => rfl
  | cons c cs ih => simp [runChecksRow, ih]

theorem evalRows_rows_length (toFloat : String → Option ℚ) (r : Rules) (missingOk : Bool)
    (checks : List Check) (metaIdx : Option Nat) (series : List Cell) (i : Nat)
    (st : EvalState) :
    (evalRows toFloat r missingOk checks metaIdx i st series).1.length = series.length := by
  induction series generalizing i st with
  | nil => rfl
  | cons cell rest ih =>
    simp only [evalRows]
    split <;> simp [ih]

theorem evalRows_qc_length (toFloat : String → Option ℚ) (r : Rules) (missingOk : Bool)
    (checks : List Check) (metaIdx : Option Nat) (series : List Cell) (i : Nat)
    (st : EvalState) :
    (evalRows toFloat r missingOk checks metaIdx i st series).2.length = series.length := by
  induction series generalizing i st with
  | nil => rfl
  | cons cell rest ih =>
    simp only [evalRows]
    split <;> simp [ih]

/-- With no metadata row, each emitted flag row of evalRows is the runChecksRow
output at the cell of that row, for some threaded state. -/
theorem evalRows_row_exists (toFloat : String → Option ℚ) (r : Rules) (missingOk : Bool)
    (checks : List Check) (series : List Cell) (idx0 : Nat) (st : EvalState) (i : Nat)
    (hi : i < series.length) :
    ∃ st2, (evalRows toFloat r missingOk checks none idx0 st series).1.getD i [] =
      (runChecksRow toFloat r missingOk st2 (series.getD i default) checks).1 := by
  induction series generalizing idx0 st i with
  | nil => simp at hi
  | cons cell rest ih =>
    cases i with
    | zero => exact ⟨st, by simp [evalRows]⟩
    | succ j =>
      have hj : j < rest.length := by simpa using hi
      obtain ⟨st2, h2⟩ := ih (idx0 + 1)
        (runChecksRow toFloat r missingOk st cell checks).2 j hj
      exact ⟨st2, by simpa [evalRows] using h2⟩

/-- The range check reads no cross-row state: its flag at position j of the
per-row flag list is the pure range branch of the source. -/
theorem runChecksRow_range (toFloat : String → Option ℚ) (r : Rules) (missingOk : Bool)
    (st : EvalState) (cell : Cell) (checks : List Check) (j : Nat)
    (hj : j < checks.length) (hc : checks.getD j Check.numeric = Check.range) :
    (runChecksRow toFloat r missingOk st cell checks).1.getD j "" =
      range_flag r.minValue r.maxValue missingOk cell.numeric := by
  induction checks generalizing st j with
  | nil => simp at hj
  | cons c cs ih =>
    cases j with
    | zero =>
      have hc0 : c = Check.range := by simpa using hc
      subst hc0
      rfl
    | succ k =>
      have hk : k < cs.length := by simpa using hj
      have hck : cs.getD k Check.numeric = Check.range := by simpa using hc
      simp only [runChecksRow, List.getD_cons_succ]
      exact ih (runCheck toFloat r missingOk st cell c).2 k hk hck

theorem checkName_inj (c1 c2 : Check) (h : checkName c1 = checkName c2) : c1 = c2 := by
  cases c1 <;> cases c2 <;> revert h <;> decide

theorem flagColName_inj (key : String) (c1 c2 : Check)
    (h : flagColName key c1 = flagColName key c2) : c1 = c2 := by
  apply checkName_inj
  unfold flagColName at h
  have hd := congrArg String.data h
  simp only [String.data_append] at hd
  have h1 := List.append_cancel_right hd
  have h2 := List.append_cancel_left h1
  exact String.ext h2

theorem getD_map_of_lt {α β : Type _} (f : α → β) (l : List α) (dA : α) (dB : β)
    (i : Nat) (hi : i < l.length) : (l.map f).getD i dB = f (l.getD i dA) := by
  rw [List.getD_eq_getElem _ _ (by simpa using hi), List.getElem_map,
    List.getD_eq_getElem _ _ hi]

theorem columnsOf_mem (names : List String) (rows : List (List String))
    (col : String × List String) (hcol : col ∈ columnsOf names rows) :
    ∃ j, j < names.length ∧
      col = (names.getD j "", rows.map fun fr => fr.getD j "") := by
  obtain ⟨j, hj, hc⟩ := List.mem_map.mp hcol
  exact ⟨j, List.mem_range.mp hj, hc.symm⟩

theorem columnsOf_mem_of_lt (names : List String) (rows : List (List String))
    (j : Nat) (hj : j < names.length) :
    (names.getD j "", rows.map fun fr => fr.getD j "") ∈ columnsOf names rows := by
  exact List.mem_map.mpr ⟨j, List.mem_range.mpr hj, rfl⟩

theorem map_flagColName_getD (key : String) (checks : List Check) (j : Nat)
    (hj : j < checks.length) :
    (checks.map (flagColName key)).getD j "" = flagColName key (checks.getD j Check.numeric) := by
  rw [List.getD_eq_getElem _ _ (by simpa using hj), List.getElem_map,
    List.getD_eq_getElem _ _ hj]

/-- Specification-side strict range flag, as the code actually behaves when
called from the engine (missing_ok stays False): a missing or non-numeric value
is FAIL; a numeric value is FAIL exactly when it violates a set bound. -/
def specRangeFlagStrict (minV maxV : Option ℚ) (v : Option ℚ) : String :=
  match v with
  | none => FAIL
  | some x =>
    if (minV.any fun m => decide (x < m)) || (maxV.any fun m => decide (m < x))
    then FAIL else PASS

theorem range_flag_strict (minV maxV : Option ℚ) (v : Option ℚ) :
    range_flag minV maxV false v = specRangeFlagStrict minV maxV v := by
  cases v with
  | none => rfl
  | some x =>
    simp only [range_flag, specRangeFlagStrict]
    cases minV <;> cases maxV <;> simp [Option.any]

/-- C5 (amended): under the engine call of evaluate_parameter (which leaves
missing_ok at its False default, so allow_nulls is not honoured by the range
check), the emitted range flag column exists for a parameter with a bound set
and the range toggle on, and each row value is FAIL when the value is missing
or non-numeric, and otherwise FAIL exactly when the value violates a set
bound. -/
theorem c5_range_amended (toFloat : String → Option ℚ) (p : Param) (g : GlobalChecks)
    (series : List Cell) (hg : g.range = true)
    (hb : p.rules.minValue.isSome || p.rules.maxValue.isSome) :
    (∃ col ∈ (evaluate_parameter toFloat series p g none).1,
      col.1 = flagColName p.key Check.range) ∧
    ∀ col ∈ (evaluate_parameter toFloat series p g none).1,
      col.1 = flagColName p.key Check.range →
      ∀ i, i < series.length →
        col.2.getD i "" =
          specRangeFlagStrict p.rules.minValue p.rules.maxValue
            (series.getD i default).numeric := by
  have hmem : Check.range ∈ applicable_checks p.rules g := by
    unfold applicable_checks
    simp only [List.mem_append]
    left; left; left; left
    right
    simp [hg, hb]
  have hout : (evaluate_parameter toFloat series p g none).1 =
      columnsOf ((applicable_checks p.rules g).map (flagColName p.key))
        (evalRows toFloat p.rules false (applicable_checks p.rules g) none 0
          initState series).1 := rfl
  obtain ⟨jr, hjrlt, hjrval⟩ := List.mem_iff_getElem.mp hmem
  have hjget : (applicable_checks p.rules g).getD jr Check.numeric = Check.range := by
    rw [List.getD_eq_getElem _ _ hjrlt, hjrval]
  constructor
  · refine ⟨(((applicable_checks p.rules g).map (flagColName p.key)).getD jr "",
      (evalRows toFloat p.rules false (applicable_checks p.rules g) none 0
        initState series).1.map fun fr => fr.getD jr ""), ?_, ?_⟩
    · rw [hout]
      exact columnsOf_mem_of_lt _ _ jr (by simpa using hjrlt)
    · show ((applicable_checks p.rules g).map (flagColName p.key)).getD jr "" =
        flagColName p.key Check.range
      rw [map_flagColName_getD p.key _ jr hjrlt, hjget]
  · intro col hcol hname i hi
    rw [hout] at hcol
    obtain ⟨j, hjlt, hcoleq⟩ := columnsOf_mem _ _ col hcol
    have hjlt2 : j < (applicable_checks p.rules g).length := by simpa using hjlt
    have hname2 : flagColName p.key ((applicable_checks p.rules g).getD j Check.numeric) =
        flagColName p.key Check.range := by
      rw [← map_flagColName_getD p.key _ j hjlt2]
      rw [hcoleq] at hname
      exact hname
    have hjrange : (applicable_checks p.rules g).getD j Check.numeric = Check.range :=
      flagColName_inj p.key _ _ hname2
    have hrows : (evalRows toFloat p.rules false (applicable_checks p.rules g) none 0
        initState series).1.length = series.length :=
      evalRows_rows_length toFloat p.rules false _ none series 0 initState
    have hcol2 : col.2.getD i "" =
        ((evalRows toFloat p.rules false (applicable_checks p.rules g) none 0
          initState series).1.getD i []).getD j "" := by
      rw [hcoleq]
      exact getD_map_of_lt _ _ [] "" i (by rw [hrows]; exact hi)
    obtain ⟨st2, hst2⟩ := evalRows_row_exists toFloat p.rules false
      (applicable_checks p.rules g) series 0 initState i hi
    rw [hcol2, hst2,
      runChecksRow_range toFloat p.rules false st2 (series.getD i default) _ j hjlt2 hjrange,
      range_flag_strict]

def c5p : Param := ⟨"SpCond_uScm", { allowNulls := true, minValue := some 0, maxValue := some 10 }⟩

def c5g : GlobalChecks := { range := true }

def c5s : List Cell := [⟨false, some 5, 0, "5"⟩]

/-- Witness for the amended C5 on a concrete in-range value. -/
theorem c5_range_amended_witness :
    c5g.range = true ∧ (c5p.rules.minValue.isSome || c5p.rules.maxValue.isSome) = true ∧
    ((∃ col ∈ (evaluate_parameter (fun _ => none) c5s c5p c5g none).1,
        col.1 = flagColName c5p.key Check.range) ∧
      ∀ col ∈ (evaluate_parameter (fun _ => none) c5s c5p c5g none).1,
        col.1 = flagColName c5p.key Check.range →
        ∀ i, i < c5s.length →
          col.2.getD i "" =
            specRangeFlagStrict c5p.rules.minValue c5p.rules.maxValue
              (c5s.getD i default).numeric) :=
  ⟨rfl, by decide, c5_range_amended (fun _ => none) c5p c5g c5s rfl (by decide)⟩

/-- Counterexample to C5 as stated: a parameter with bounds set and
allow_nulls true, evaluated as the engine does (missing_ok defaulted to
False), gives range flag FAIL on a missing value, not PASS. -/
theorem c5_range_counterexample :
    (evaluate_parameter (fun _ => none) [⟨true, none, 0, ""⟩]
        ⟨"SpCond_uScm", { allowNulls := true, minValue := some 0, maxValue := some 1000 }⟩
        { range := true } none).1 =
      [("SpCond_uScm_range_flag", [FAIL])] ∧ FAIL ≠ PASS := by
  constructor
  · rfl
  · decide

/-- Python dict assignment on an insertion-ordered association list: an
existing key keeps its position and gets the new value, a fresh key is
appended. -/
def dictInsert (l : List (String × List String)) (k : String) (v : List String) :
    List (String × List String) :=
  if l.any (fun kv => kv.1 == k) then
    l.map fun kv => if kv.1 == k then (k, v) else kv
  else l ++ [(k, v)]

theorem dictInsert_fresh (l : List (String × List String)) (k : String)
    (v : List String) (hk : ∀ kv ∈ l, kv.1 ≠ k) : dictInsert l k v = l ++ [(k, v)] := by
  unfold dictInsert
  have : l.any (fun kv => kv.1 == k) = false := by
    simp only [List.any_eq_false]
    intro kv hkv
    simpa using hk kv hkv
  rw [this]
  simp

theorem foldl_dictInsert_fresh (pairs : List (String × List String))
    (init : List (String × List String))
    (hfresh : ∀ kv ∈ pairs, ∀ kv2 ∈ init, kv2.1 ≠ kv.1)
    (hnodup : (pairs.map Prod.fst).Nodup) :
    List.foldl (fun acc kv => dictInsert acc kv.1 kv.2) init pairs = init ++ pairs := by
  induction pairs generalizing init with
  | nil => simp
  | cons kv rest ih =>
    rw [List.foldl_cons, dictInsert_fresh init kv.1 kv.2
      (fun kv2 h2 => hfresh kv (by simp) kv2 h2)]
    have hnodup2 : (rest.map Prod.fst).Nodup := by
      simpa using hnodup.of_cons
    have hfresh2 : ∀ kv3 ∈ rest, ∀ kv2 ∈ init ++ [(kv.1, kv.2)], kv2.1 ≠ kv3.1 := by
      intro kv3 h3 kv2 h2
      rcases List.mem_append.mp h2 with h2a | h2b
      · exact hfresh kv3 (by simp [h3]) kv2 h2a
      · have h2e : kv2 = (kv.1, kv.2) := by simpa using h2b
        subst h2e
        simp only [ne_eq]
        intro hc
        have hmem : kv.1 ∈ rest.map Prod.fst := by
          rw [hc]
          exact List.mem_map_of_mem Prod.fst h3
        have hn : kv.1 ∉ rest.map Prod.fst ∧ (rest.map Prod.fst).Nodup := by
          simpa using hnodup
        exact hn.1 hmem
    rw [ih (init ++ [(kv.1, kv.2)]) hfresh2 hnodup2]
    simp

theorem data_ends_flag_ne_origin (l : List Char) : l ++ "_flag".data ≠ "origin".data := by
  intro h
  have hsplit : "origin".data = "o".data ++ "rigin".data := by decide
  rw [hsplit] at h
  have h2 := (List.append_inj' h (by decide)).2
  revert h2
  decide

theorem data_ends_flag_ne_overall (l : List Char) :
    l ++ "_flag".data ≠ "overall_dq_check".data := by
  intro h
  have hsplit : "overall_dq_check".data = "overall_dq_".data ++ "check".data := by decide
  rw [hsplit] at h
  have h2 := (List.append_inj' h (by decide)).2
  revert h2
  decide

theorem flagColName_ne_origin (key : String) (c : Check) :
    flagColName key c ≠ "origin" := by
  intro h
  have hd := congrArg String.data h
  unfold flagColName at hd
  simp only [String.data_append] at hd
  exact data_ends_flag_ne_origin _ hd

theorem flagColName_ne_overall (key : String) (c : Check) :
    flagColName key c ≠ "overall_dq_check" := by
  intro h
  have hd := congrArg String.data h
  unfold flagColName at hd
  simp only [String.data_append] at hd
  exact data_ends_flag_ne_overall _ hd

theorem qcName_ne_origin (key : String) : key ++ "_qc_flag" ≠ "origin" := by
  intro h
  have hd := congrArg String.data h
  rw [String.data_append] at hd
  have hsplit : "_qc_flag".data = "_qc".data ++ "_flag".data := by decide
  rw [hsplit, ← List.append_assoc] at hd
  exact data_ends_flag_ne_origin _ hd

theorem qcName_ne_overall (key : String) : key ++ "_qc_flag" ≠ "overall_dq_check" := by
  intro h
  have hd := congrArg String.data h
  rw [String.data_append] at hd
  have hsplit : "_qc_flag".data = "_qc".data ++ "_flag".data := by decide
  rw [hsplit, ← List.append_assoc] at hd
  exact data_ends_flag_ne_overall _ hd

/-- The origin column built by process_file (qc_engine.py lines 121-127):
empty at the metadata row, the origin name elsewhere. -/
def originColumn (origin : String) (metaIdx : Option Nat) (n : Nat) : List String :=
  (List.range n).map fun i => if metaIdx = some i then "" else origin

/-- The flag columns inserted by the parameter loop of process_file
(qc_engine.py lines 130-137): for each resolved parameter, its per-check flag
columns followed by its aggregate qc flag column. -/
def paramFlagPairs (toFloat : String → Option ℚ) (g : GlobalChecks) (metaIdx : Option Nat)
    (resolved : List (Param × List Cell)) : List (String × List String) :=
  resolved.flatMap fun pr =>
    (evaluate_parameter toFloat pr.2 pr.1 g metaIdx).1 ++
      [(pr.1.key ++ "_qc_flag", (evaluate_parameter toFloat pr.2 pr.1 g metaIdx).2)]

/-- new_columns as assembled by process_file (qc_engine.py lines 119-139):
origin column first, then the parameter flag columns, then maintenance_flag,
with dict insertion semantics. -/
def build_new_columns (toFloat : String → Option ℚ) (g : GlobalChecks)
    (metaIdx : Option Nat) (n : Nat) (origin : String)
    (resolved : List (Param × List Cell)) (maintFlags : List String) :
    List (String × List String) :=
  List.foldl (fun acc kv => dictInsert acc kv.1 kv.2)
    [("origin", originColumn origin metaIdx n)]
    (paramFlagPairs toFloat g metaIdx resolved ++ [("maintenance_flag", maintFlags)])

/-- The overall_dq_check column (qc_engine.py lines 141-152): empty at the
metadata row; otherwise FAIL when any flag column other than origin and
overall_dq_check holds FAIL at the row, else PASS. -/
def overall_dq_check (newCols : List (String × List String)) (metaIdx : Option Nat)
    (n : Nat) : List String :=
  let flagCols := newCols.filter fun kv =>
    !(kv.1 == "origin") && !(kv.1 == "overall_dq_check")
  (List.range n).map fun i =>
    if metaIdx = some i then ""
    else if flagCols.any (fun kv => kv.2.getD i "" == FAIL) then FAIL else PASS

theorem paramFlagPairs_keys (toFloat : String → Option ℚ) (g : GlobalChecks)
    (metaIdx : Option Nat) (resolved : List (Param × List Cell))
    (kv : String × List String) (hkv : kv ∈ paramFlagPairs toFloat g metaIdx resolved) :
    kv.1 ≠ "origin" ∧ kv.1 ≠ "overall_dq_check" := by
  obtain ⟨pr, hpr, hmem⟩ := List.mem_flatMap.mp hkv
  rcases List.mem_append.mp hmem with hfc | hqc
  · obtain ⟨j, hj, hceq⟩ := columnsOf_mem _ _ kv hfc
    have hjlt : j < (applicable_checks pr.1.rules g).length := by simpa using hj
    have hname : kv.1 = flagColName pr.1.key
        ((applicable_checks pr.1.rules g).getD j Check.numeric) := by
      rw [hceq]
      exact map_flagColName_getD pr.1.key _ j hjlt
    rw [hname]
    exact ⟨flagColName_ne_origin _ _, flagColName_ne_overall _ _⟩
  · have : kv = (pr.1.key ++ "_qc_flag", (evaluate_parameter toFloat pr.2 pr.1 g metaIdx).2) := by
      simpa using hqc
    subst this
    exact ⟨qcName_ne_origin _, qcName_ne_overall _⟩

/-- C1: in the assembled flag table, a non-metadata row has overall_dq_check =
FAIL iff at least one emitted flag value of the row (a per-check flag, a
per-parameter aggregate qc flag, or the maintenance flag) is FAIL, and PASS
otherwise; the metadata row is exactly the row whose overall_dq_check is
empty. The freshness hypothesis states that the generated column names do not
collide (parameter keys are unique, spec section 3 invariant). -/
theorem c1_overall_dq_check (toFloat : String → Option ℚ) (g : GlobalChecks)
    (metaIdx : Option Nat) (n : Nat) (origin : String)
    (resolved : List (Param × List Cell)) (maintFlags : List String)
    (hnodup : ("origin" :: (paramFlagPairs toFloat g metaIdx resolved ++
      [("maintenance_flag", maintFlags)]).map Prod.fst).Nodup)
    (i : Nat) (hi : i < n) :
    (metaIdx ≠ some i →
      ((overall_dq_check (build_new_columns toFloat g metaIdx n origin resolved maintFlags)
          metaIdx n).getD i "" = FAIL ↔
        (maintFlags.getD i "" = FAIL ∨
          ∃ pr ∈ resolved,
            (evaluate_parameter toFloat pr.2 pr.1 g metaIdx).2.getD i "" = FAIL ∨
            ∃ c ∈ (evaluate_parameter toFloat pr.2 pr.1 g metaIdx).1,
              c.2.getD i "" = FAIL)) ∧
      ((overall_dq_check (build_new_columns toFloat g metaIdx n origin resolved maintFlags)
          metaIdx n).getD i "" = FAIL ∨
        (overall_dq_check (build_new_columns toFloat g metaIdx n origin resolved maintFlags)
          metaIdx n).getD i "" = PASS)) ∧
    ((overall_dq_check (build_new_columns toFloat g metaIdx n origin resolved maintFlags)
        metaIdx n).getD i "" = "" ↔ metaIdx = some i) := by
  set pairs := paramFlagPairs toFloat g metaIdx resolved ++
    [("maintenance_flag", maintFlags)] with hpairs
  have hnodup2 : (pairs.map Prod.fst).Nodup := (List.nodup_cons.mp hnodup).2
  have horigin : "origin" ∉ pairs.map Prod.fst := (List.nodup_cons.mp hnodup).1
  have hbuild : build_new_columns toFloat g metaIdx n origin resolved maintFlags =
      ("origin", originColumn origin metaIdx n) :: pairs := by
    unfold build_new_columns
    rw [foldl_dictInsert_fresh pairs [("origin", originColumn origin metaIdx n)]
      (fun kv hkv kv2 h2 => by
        have h2e : kv2 = ("origin", originColumn origin metaIdx n) := by simpa using h2
        subst h2e
        simp only [ne_eq]
        intro hc
        exact horigin (hc ▸ List.mem_map_of_mem Prod.fst hkv)) hnodup2]
    simp
  have hfilter : (build_new_columns toFloat g metaIdx n origin resolved maintFlags).filter
      (fun kv => !(kv.1 == "origin") && !(kv.1 == "overall_dq_check")) = pairs := by
    rw [hbuild]
    rw [List.filter_cons_of_neg (by simp)]
    apply List.filter_eq_self.mpr
    intro kv hkv
    rcases List.mem_append.mp hkv with hp | hm
    · obtain ⟨h1, h2⟩ := paramFlagPairs_keys toFloat g metaIdx resolved kv hp
      simp [h1, h2]
    · have : kv = ("maintenance_flag", maintFlags) := by simpa using hm
      subst this
      simp
  have hgetD : (overall_dq_check (build_new_columns toFloat g metaIdx n origin resolved
      maintFlags) metaIdx n).getD i "" =
      (if metaIdx = some i then ""
       else if pairs.any (fun kv => kv.2.getD i "" == FAIL) then FAIL else PASS) := by
    unfold overall_dq_check
    rw [hfilter]
    rw [getD_map_of_lt _ (List.range n) 0 "" i (by simpa using hi)]
    rw [List.getD_eq_getElem _ _ (by simpa using hi), List.getElem_range]
  have hany : pairs.any (fun kv => kv.2.getD i "" == FAIL) = true ↔
      (maintFlags.getD i "" = FAIL ∨
        ∃ pr ∈ resolved,
          (evaluate_parameter toFloat pr.2 pr.1 g metaIdx).2.getD i "" = FAIL ∨
          ∃ c ∈ (evaluate_parameter toFloat pr.2 pr.1 g metaIdx).1,
            c.2.getD i "" = FAIL) := by
    rw [List.any_eq_true]
    constructor
    · rintro ⟨kv, hkv, hfail⟩
      have hfail2 : kv.2.getD i "" = FAIL := by simpa using hfail
      rcases List.mem_append.mp hkv with hp | hm
      · obtain ⟨pr, hpr, hmem⟩ := List.mem_flatMap.mp hp
        rcases List.mem_append.mp hmem with hfc | hqc
        · exact Or.inr ⟨pr, hpr, Or.inr ⟨kv, hfc, hfail2⟩⟩
        · have hkveq : kv = (pr.1.key ++ "_qc_flag",
              (evaluate_parameter toFloat pr.2 pr.1 g metaIdx).2) := by simpa using hqc
          refine Or.inr ⟨pr, hpr, Or.inl ?_⟩
          rw [hkveq] at hfail2
          exact hfail2
      · have : kv = ("maintenance_flag", maintFlags) := by simpa using hm
        subst this
        exact Or.inl hfail2
    · rintro (hm | ⟨pr, hpr, hqc | ⟨c, hc, hcf⟩⟩)
      · exact ⟨("maintenance_flag", maintFlags), by simp [hpairs], by simpa using hm⟩
      · refine ⟨(pr.1.key ++ "_qc_flag", (evaluate_parameter toFloat pr.2 pr.1 g metaIdx).2),
          ?_, by simpa using hqc⟩
        rw [hpairs]
        apply List.mem_append_left
        apply List.mem_flatMap.mpr
        exact ⟨pr, hpr, List.mem_append_right _ (by simp)⟩
      · refine ⟨c, ?_, by simpa using hcf⟩
        rw [hpairs]
        apply List.mem_append_left
        apply List.mem_flatMap.mpr
        exact ⟨pr, hpr, List.mem_append_left _ hc⟩
  rw [hgetD]
  constructor
  · intro hmeta
    rw [if_neg hmeta]
    constructor
    · constructor
      · intro h
        apply hany.mp
        by_contra hc
        rw [Bool.not_eq_true] at hc
        rw [hc] at h
        simp only [Bool.false_eq_true, if_false] at h
        exact absurd h (by decide)
      · intro h
        rw [hany.mpr h]
        simp
    · by_cases hc : pairs.any (fun kv => kv.2.getD i "" == FAIL) = true
      · rw [hc]; simp
      · rw [Bool.not_eq_true] at hc
        rw [hc]; simp
  · constructor
    · intro h
      by_contra hmeta
      rw [if_neg hmeta] at h
      by_cases hc : pairs.any (fun kv => kv.2.getD i "" == FAIL) = true
      · rw [hc] at h
        simp only [if_true] at h
        exact absurd h (by decide)
      · rw [Bool.not_eq_true] at hc
        rw [hc] at h
        simp only [Bool.false_eq_true, if_false] at h
        exact absurd h (by decide)
    · intro h
      rw [if_pos h]

/-- Concrete resolved-parameter list for the C1 witness. -/
def c1res : List (Param × List Cell) := [(c5p, [default, ⟨false, some 50, 0, "50"⟩])]

/-- Concrete overall column for the C1 witness. -/
def c1ov : List String :=
  overall_dq_check (build_new_columns (fun _ => none) c5g (some 0) 2 "Observator"
    c1res ["", "PASS"]) (some 0) 2

/-- Witness for C1 at a concrete assembled table: one resolved parameter with a
range check, one data row plus a metadata row at index 0. -/
theorem c1_overall_dq_check_witness :
    ("origin" :: (paramFlagPairs (fun _ => none) c5g (some 0) c1res ++
      [("maintenance_flag", ["", "PASS"])]).map Prod.fst).Nodup ∧
    1 < 2 ∧
    ((some 0 ≠ some 1 →
      ((c1ov.getD 1 "" = FAIL ↔
        (["", "PASS"].getD 1 "" = FAIL ∨
          ∃ pr ∈ c1res,
            (evaluate_parameter (fun _ => none) pr.2 pr.1 c5g (some 0)).2.getD 1 "" = FAIL ∨
            ∃ c ∈ (evaluate_parameter (fun _ => none) pr.2 pr.1 c5g (some 0)).1,
              c.2.getD 1 "" = FAIL)) ∧
        (c1ov.getD 1 "" = FAIL ∨ c1ov.getD 1 "" = PASS))) ∧
      (c1ov.getD 1 "" = "" ↔ some 0 = some 1)) :=
  ⟨by decide, by decide,
    c1_overall_dq_check (fun _ => none) c5g (some 0) 2 "Observator" c1res ["", "PASS"]
      (by decide) 1 (by decide)⟩

/-- ASCII lower-casing of one character (model of Python str.lower on the
ASCII range used by the diary field). -/
def asciiLower (c : Char) : Char :=
  if 'A' ≤ c ∧ c ≤ 'Z' then Char.ofNat (c.toNat + 32) else c

/-- Python str.strip: drop leading and trailing whitespace. -/
def stripChars (l : List Char) : List Char :=
  ((l.dropWhile Char.isWhitespace).reverse.dropWhile Char.isWhitespace).reverse

/-- Python str.endswith applied to the _flag suffix. -/
def endsWithFlag (s : String) : Bool := "_flag".data.isSuffixOf s.data

/-- A table row: cells keyed by column name, in column order. -/
abbrev Row := List (String × String)

/-- A delimited tabular file as pandas sees it: column names plus rows of
string cells. -/
@[ext] structure Table where
  cols : List String
  rows : List Row
  deriving DecidableEq

def lookupCell (r : Row) (c : String) : String := (r.lookup c).getD ""

/-- The column-keep predicate of _build_cleaned_df (qc_engine.py line 83):
drop a column iff its name ends with _flag and it is not overall_dq_check. -/
def keepCol (c : String) : Bool := !(endsWithFlag c && c != "overall_dq_check")

/-- _build_cleaned_df (qc_engine.py lines 79-86): keep the rows whose
overall_dq_check equals PASS and drop every _flag column except
overall_dq_check (the source guards the drop with `if drop_cols`, which is the
identity when the drop list is empty). A table without the overall_dq_check
column is returned unchanged. -/
def build_cleaned_df (t : Table) : Table :=
  if "overall_dq_check" ∈ t.cols then
    { cols := t.cols.filter keepCol,
      rows := (t.rows.filter fun r => lookupCell r "overall_dq_check" == PASS).map
        fun r => r.filter fun kv => keepCol kv.1 }
  else t

theorem lookup_filter_of_pred (p : String × String → Bool) (row : Row) (c : String)
    (hp : ∀ v, p (c, v) = true) : (row.filter p).lookup c = row.lookup c := by
  induction row with
  | nil => rfl
  | cons kv r ih =>
    obtain ⟨k, v⟩ := kv
    by_cases hc : k = c
    · subst hc
      rw [List.filter_cons_of_pos (hp v)]
      simp [List.lookup]
    · have hbeq : (c == k) = false := beq_eq_false_iff_ne.mpr (Ne.symm hc)
      by_cases hpkv : p (k, v) = true
      · rw [List.filter_cons_of_pos hpkv]
        simp only [List.lookup, hbeq]
        exact ih
      · rw [List.filter_cons_of_neg (by simpa using hpkv), ih]
        simp [List.lookup, hbeq]

theorem lookupCell_keepCol (r : Row) :
    lookupCell (r.filter fun kv => keepCol kv.1) "overall_dq_check" =
      lookupCell r "overall_dq_check" := by
  have hkc : keepCol "overall_dq_check" = true := by decide
  unfold lookupCell
  rw [lookup_filter_of_pred _ r "overall_dq_check" (fun _ => hkc)]

theorem keepCol_iff (c : String) :
    keepCol c = true ↔ (endsWithFlag c = false ∨ c = "overall_dq_check") := by
  unfold keepCol
  cases h : endsWithFlag c <;> simp [h]

/-- C8: deriving the cleaned table keeps exactly the rows whose
overall_dq_check equals PASS (same multiplicity, projected to the kept
columns), the remaining columns are exactly those not ending in _flag plus
overall_dq_check, and the derivation is idempotent. -/
theorem c8_cleaned_table (t : Table) (hov : "overall_dq_check" ∈ t.cols) :
    (∀ r ∈ (build_cleaned_df t).rows, lookupCell r "overall_dq_check" = PASS) ∧
    ((build_cleaned_df t).rows.length =
      (t.rows.filter fun r => lookupCell r "overall_dq_check" == PASS).length) ∧
    (∀ r ∈ t.rows, lookupCell r "overall_dq_check" = PASS →
      (r.filter fun kv => keepCol kv.1) ∈ (build_cleaned_df t).rows) ∧
    (∀ r2 ∈ (build_cleaned_df t).rows, ∃ r ∈ t.rows,
      lookupCell r "overall_dq_check" = PASS ∧ r2 = r.filter fun kv => keepCol kv.1) ∧
    (∀ c, c ∈ (build_cleaned_df t).cols ↔
      c ∈ t.cols ∧ (endsWithFlag c = false ∨ c = "overall_dq_check")) ∧
    build_cleaned_df (build_cleaned_df t) = build_cleaned_df t := by
  have hstep : ∀ u : Table, "overall_dq_check" ∈ u.cols → build_cleaned_df u =
      { cols := u.cols.filter keepCol,
        rows := (u.rows.filter fun r => lookupCell r "overall_dq_check" == PASS).map
          fun r => r.filter fun kv => keepCol kv.1 } := by
    intro u hu
    unfold build_cleaned_df
    rw [if_pos hu]
  have hbuild := hstep t hov
  refine ⟨?_, ?_, ?_, ?_, ?_, ?_⟩
  · intro r hr
    rw [hbuild] at hr
    obtain ⟨r0, hr0, rfl⟩ := List.mem_map.mp hr
    obtain ⟨-, hpass⟩ := List.mem_filter.mp hr0
    rw [lookupCell_keepCol]
    exact eq_of_beq hpass
  · rw [hbuild]
    simp
  · intro r hr hpass
    rw [hbuild]
    exact List.mem_map_of_mem _ (List.mem_filter.mpr ⟨hr, by simp [hpass]⟩)
  · intro r2 hr2
    rw [hbuild] at hr2
    obtain ⟨r0, hr0, rfl⟩ := List.mem_map.mp hr2
    obtain ⟨hmem, hpass⟩ := List.mem_filter.mp hr0
    exact ⟨r0, hmem, eq_of_beq hpass, rfl⟩
  · intro c
    rw [hbuild]
    simp only [List.mem_filter]
    rw [keepCol_iff]
  · have hov2 : "overall_dq_check" ∈ (build_cleaned_df t).cols := by
      rw [hbuild]
      exact List.mem_filter.mpr ⟨hov, by decide⟩
    rw [hstep _ hov2]
    apply Table.ext
    · rw [hbuild]
      simp only [List.filter_filter]
      apply List.filter_congr
      intro c _
      exact Bool.and_self (keepCol c)
    · have hall : ((build_cleaned_df t).rows.filter
          fun r => lookupCell r "overall_dq_check" == PASS) = (build_cleaned_df t).rows := by
        apply List.filter_eq_self.mpr
        intro r hr
        rw [hbuild] at hr
        obtain ⟨r0, hr0, rfl⟩ := List.mem_map.mp hr
        obtain ⟨-, hpass⟩ := List.mem_filter.mp hr0
        rw [lookupCell_keepCol]
        exact hpass
      rw [hall, hbuild]
      simp only [List.map_map]
      apply List.map_congr_left
      intro r _
      simp only [Function.comp]
      rw [List.filter_filter]
      apply List.filter_congr
      intro kv _
      exact Bool.and_self (keepCol kv.1)

/-- Witness for C8 on a concrete flagged table with one PASS row, one FAIL row
and one flag column. -/
theorem c8_cleaned_table_witness :
    "overall_dq_check" ∈
      (Table.mk ["TimeStamp", "Temp_range_flag", "overall_dq_check"]
        [[("TimeStamp", "t1"), ("Temp_range_flag", "PASS"), ("overall_dq_check", "PASS")],
         [("TimeStamp", "t2"), ("Temp_range_flag", "FAIL"), ("overall_dq_check", "FAIL")]]).cols ∧
    ((∀ r ∈ (build_cleaned_df (Table.mk ["TimeStamp", "Temp_range_flag", "overall_dq_check"]
        [[("TimeStamp", "t1"), ("Temp_range_flag", "PASS"), ("overall_dq_check", "PASS")],
         [("TimeStamp", "t2"), ("Temp_range_flag", "FAIL"), ("overall_dq_check", "FAIL")]])).rows,
      lookupCell r "overall_dq_check" = PASS) ∧
    ((build_cleaned_df (Table.mk ["TimeStamp", "Temp_range_flag", "overall_dq_check"]
        [[("TimeStamp", "t1"), ("Temp_range_flag", "PASS"), ("overall_dq_check", "PASS")],
         [("TimeStamp", "t2"), ("Temp_range_flag", "FAIL"), ("overall_dq_check", "FAIL")]])).rows.length =
      ((Table.mk ["TimeStamp", "Temp_range_flag", "overall_dq_check"]
        [[("TimeStamp", "t1"), ("Temp_range_flag", "PASS"), ("overall_dq_check", "PASS")],
         [("TimeStamp", "t2"), ("Temp_range_flag", "FAIL"), ("overall_dq_check", "FAIL")]]).rows.filter
          fun r => lookupCell r "overall_dq_check" == PASS).length) ∧
    (∀ r ∈ (Table.mk ["TimeStamp", "Temp_range_flag", "overall_dq_check"]
        [[("TimeStamp", "t1"), ("Temp_range_flag", "PASS"), ("overall_dq_check", "PASS")],
         [("TimeStamp", "t2"), ("Temp_range_flag", "FAIL"), ("overall_dq_check", "FAIL")]]).rows,
      lookupCell r "overall_dq_check" = PASS →
      (r.filter fun kv => keepCol kv.1) ∈
        (build_cleaned_df (Table.mk ["TimeStamp", "Temp_range_flag", "overall_dq_check"]
        [[("TimeStamp", "t1"), ("Temp_range_flag", "PASS"), ("overall_dq_check", "PASS")],
         [("TimeStamp", "t2"), ("Temp_range_flag", "FAIL"), ("overall_dq_check", "FAIL")]])).rows) ∧
    (∀ r2 ∈ (build_cleaned_df (Table.mk ["TimeStamp", "Temp_range_flag", "overall_dq_check"]
        [[("TimeStamp", "t1"), ("Temp_range_flag", "PASS"), ("overall_dq_check", "PASS")],
         [("TimeStamp", "t2"), ("Temp_range_flag", "FAIL"), ("overall_dq_check", "FAIL")]])).rows,
      ∃ r ∈ (Table.mk ["TimeStamp", "Temp_range_flag", "overall_dq_check"]
        [[("TimeStamp", "t1"), ("Temp_range_flag", "PASS"), ("overall_dq_check", "PASS")],
         [("TimeStamp", "t2"), ("Temp_range_flag", "FAIL"), ("overall_dq_check", "FAIL")]]).rows,
        lookupCell r "overall_dq_check" = PASS ∧ r2 = r.filter fun kv => keepCol kv.1) ∧
    (∀ c, c ∈ (build_cleaned_df (Table.mk ["TimeStamp", "Temp_range_flag", "overall_dq_check"]
        [[("TimeStamp", "t1"), ("Temp_range_flag", "PASS"), ("overall_dq_check", "PASS")],
         [("TimeStamp", "t2"), ("Temp_range_flag", "FAIL"), ("overall_dq_check", "FAIL")]])).cols ↔
      c ∈ (Table.mk ["TimeStamp", "Temp_range_flag", "overall_dq_check"]
        [[("TimeStamp", "t1"), ("Temp_range_flag", "PASS"), ("overall_dq_check", "PASS")],
         [("TimeStamp", "t2"), ("Temp_range_flag", "FAIL"), ("overall_dq_check", "FAIL")]]).cols ∧
        (endsWithFlag c = false ∨ c = "overall_dq_check")) ∧
    build_cleaned_df (build_cleaned_df (Table.mk ["TimeStamp", "Temp_range_flag", "overall_dq_check"]
        [[("TimeStamp", "t1"), ("Temp_range_flag", "PASS"), ("overall_dq_check", "PASS")],
         [("TimeStamp", "t2"), ("Temp_range_flag", "FAIL"), ("overall_dq_check", "FAIL")]])) =
      build_cleaned_df (Table.mk ["TimeStamp", "Temp_range_flag", "overall_dq_check"]
        [[("TimeStamp", "t1"), ("Temp_range_flag", "PASS"), ("overall_dq_check", "PASS")],
         [("TimeStamp", "t2"), ("Temp_range_flag", "FAIL"), ("overall_dq_check", "FAIL")]])) :=
  ⟨by decide,
    c8_cleaned_table (Table.mk ["TimeStamp", "Temp_range_flag", "overall_dq_check"]
        [[("TimeStamp", "t1"), ("Temp_range_flag", "PASS"), ("overall_dq_check", "PASS")],
         [("TimeStamp", "t2"), ("Temp_range_flag", "FAIL"), ("overall_dq_check", "FAIL")]])
      (by decide)⟩

/-- One diary row as read by load_maintenance_periods: the exclude field and
the raw start and end timestamp texts. -/
structure DiaryRow where
  exclude : String
  startRaw : String
  endRaw : String
  deriving DecidableEq

/-- Python str(x).strip().lower() == "yes" on the exclude field. -/
def excludeYes (s : String) : Bool := ((stripChars s.data).map asciiLower) == "yes".data

/-- load_maintenance_periods (maintenance.py lines 17-39), over the parse
function for the fixed day/month/year hour:minute diary format: keep rows whose
exclude field equals yes case-insensitively, skip rows with an unparseable
start, default a missing end to the start (zero-width period). -/
def load_maintenance_periods (parse : String → Option Int) (rows : List DiaryRow) :
    List (Int × Int) :=
  rows.filterMap fun row =>
    if excludeYes row.exclude then
      match parse row.startRaw with
      | none => none
      | some s => some (s, (parse row.endRaw).getD s)
    else none

/-- The per-row flag of flag_maintenance for a non-metadata row
(maintenance.py lines 48-53): PASS when the timestamp does not parse or there
are no periods, FAIL when inside any closed period. -/
def maintFlagValue (periods : List (Int × Int)) : Option Int → String
  | none => PASS
  | some ts =>
    if periods.isEmpty then PASS
    else if periods.any fun p => decide (p.1 ≤ ts) && decide (ts ≤ p.2)
      then FAIL else PASS

/-- The row loop of flag_maintenance (maintenance.py lines 42-54), carrying the
running row index: empty flag at the metadata row, the period test otherwise. -/
def flag_maintenance_from (parse : String → Option Int) (periods : List (Int × Int))
    (metaIdx : Option Nat) : Nat → List String → List String
  | _, [] => []
  | idx, value :: rest =>
    (if metaIdx = some idx then "" else maintFlagValue periods (parse value))
    :: flag_maintenance_from parse periods metaIdx (idx + 1) rest

/-- flag_maintenance with the source argument order (timestamps, periods,
metadata index). -/
def flag_maintenance (parse : String → Option Int) (timestamps : List String)
    (periods : List (Int × Int)) (metaIdx : Option Nat) : List String :=
  flag_maintenance_from parse periods metaIdx 0 timestamps

theorem flag_maintenance_from_getD (parse : String → Option Int)
    (periods : List (Int × Int)) (metaIdx : Option Nat) (ts : List String)
    (idx0 i : Nat) (hi : i < ts.length) :
    (flag_maintenance_from parse periods metaIdx idx0 ts).getD i "" =
      (if metaIdx = some (idx0 + i) then ""
       else maintFlagValue periods (parse (ts.getD i ""))) := by
  induction ts generalizing idx0 i with
  | nil => simp at hi
  | cons v rest ih =>
    cases i with
    | zero => simp [flag_maintenance_from]
    | succ j =>
      have hj : j < rest.length := by simpa using hi
      have hidx : idx0 + (j + 1) = (idx0 + 1) + j := by omega
      simp only [flag_maintenance_from, List.getD_cons_succ, hidx]
      exact ih (idx0 + 1) j hj

/-- C9: a loaded maintenance period corresponds exactly to a diary row whose
exclude field equals yes case-insensitively, with parseable start, and with a
missing end defaulting to the start; a non-metadata row is flagged FAIL iff its
parsed timestamp lies inside some closed period, with unparseable timestamps
defaulting to PASS and the metadata row getting the empty flag. -/
theorem c9_maintenance (parse : String → Option Int) (diary : List DiaryRow)
    (timestamps : List String) (metaIdx : Option Nat) :
    (∀ se : Int × Int, se ∈ load_maintenance_periods parse diary ↔
      ∃ row ∈ diary, excludeYes row.exclude = true ∧ parse row.startRaw = some se.1 ∧
        (parse row.endRaw = some se.2 ∨ (parse row.endRaw = none ∧ se.2 = se.1))) ∧
    ∀ i, i < timestamps.length →
      (((flag_maintenance parse timestamps (load_maintenance_periods parse diary)
          metaIdx).getD i "" = "") ↔ metaIdx = some i) ∧
      (((flag_maintenance parse timestamps (load_maintenance_periods parse diary)
          metaIdx).getD i "" = FAIL) ↔
        (metaIdx ≠ some i ∧ ∃ t, parse (timestamps.getD i "") = some t ∧
          ∃ p ∈ load_maintenance_periods parse diary, p.1 ≤ t ∧ t ≤ p.2)) ∧
      ((flag_maintenance parse timestamps (load_maintenance_periods parse diary)
          metaIdx).getD i "" = "" ∨
       (flag_maintenance parse timestamps (load_maintenance_periods parse diary)
          metaIdx).getD i "" = PASS ∨
       (flag_maintenance parse timestamps (load_maintenance_periods parse diary)
          metaIdx).getD i "" = FAIL) := by
  constructor
  · intro se
    obtain ⟨s1, s2⟩ := se
    unfold load_maintenance_periods
    rw [List.mem_filterMap]
    constructor
    · rintro ⟨row, hrow, hf⟩
      refine ⟨row, hrow, ?_⟩
      by_cases hy : excludeYes row.exclude = true
      · rw [if_pos hy] at hf
        cases hs : parse row.startRaw with
        | none => rw [hs] at hf; exact absurd hf (by simp)
        | some s =>
          rw [hs] at hf
          simp only [Option.some.injEq, Prod.mk.injEq] at hf
          obtain ⟨hf1, hf2⟩ := hf
          subst hf1
          refine ⟨hy, rfl, ?_⟩
          cases he : parse row.endRaw with
          | none =>
            right
            refine ⟨rfl, ?_⟩
            rw [he] at hf2
            simp only [Option.getD_none] at hf2
            exact hf2.symm
          | some e =>
            left
            rw [he] at hf2
            simp only [Option.getD_some] at hf2
            exact congrArg some hf2
      · rw [if_neg hy] at hf
        exact absurd hf (by simp)
    · rintro ⟨row, hrow, hy, hs, hend⟩
      refine ⟨row, hrow, ?_⟩
      rw [if_pos hy, hs]
      rcases hend with he | ⟨he, hee⟩
      · rw [he]
        rfl
      · rw [he]
        have hee2 : s2 = s1 := hee
        subst hee2
        rfl
  · intro i hi
    have hbody := flag_maintenance_from_getD parse (load_maintenance_periods parse diary)
      metaIdx timestamps 0 i hi
    rw [Nat.zero_add] at hbody
    unfold flag_maintenance
    rw [hbody]
    by_cases hm : metaIdx = some i
    · rw [if_pos hm]
      refine ⟨by simp [hm], ?_, Or.inl rfl⟩
      constructor
      · intro h
        exact absurd h (by decide)
      · rintro ⟨hne, -⟩
        exact absurd hm hne
    · rw [if_neg hm]
      rcases hp : parse (timestamps.getD i "") with - | t
      · rw [show maintFlagValue (load_maintenance_periods parse diary) none = PASS from rfl]
        refine ⟨?_, ?_, Or.inr (Or.inl rfl)⟩
        · constructor
          · intro h
            exact absurd h (by decide)
          · intro h
            exact absurd h hm
        · constructor
          · intro h
            exact absurd h (by decide)
          · rintro ⟨-, t, ht, -⟩
            exact absurd ht (by simp)
      · by_cases hemp : (load_maintenance_periods parse diary).isEmpty = true
        · rw [show maintFlagValue (load_maintenance_periods parse diary) (some t) =
            if (load_maintenance_periods parse diary).isEmpty then PASS
            else if (load_maintenance_periods parse diary).any
              (fun p => decide (p.1 ≤ t) && decide (t ≤ p.2)) then FAIL else PASS from rfl]
          rw [if_pos hemp]
          have hnil : load_maintenance_periods parse diary = [] :=
            List.isEmpty_iff.mp hemp
          refine ⟨?_, ?_, Or.inr (Or.inl rfl)⟩
          · constructor
            · intro h
              exact absurd h (by decide)
            · intro h
              exact absurd h hm
          · constructor
            · intro h
              exact absurd h (by decide)
            · rintro ⟨-, t2, -, p, hp2, -⟩
              rw [hnil] at hp2
              simp at hp2
        · rw [show maintFlagValue (load_maintenance_periods parse diary) (some t) =
            if (load_maintenance_periods parse diary).isEmpty then PASS
            else if (load_maintenance_periods parse diary).any
              (fun p => decide (p.1 ≤ t) && decide (t ≤ p.2)) then FAIL else PASS from rfl]
          rw [if_neg hemp]
          by_cases hany : (load_maintenance_periods parse diary).any
              (fun p => decide (p.1 ≤ t) && decide (t ≤ p.2)) = true
          · rw [if_pos hany]
            obtain ⟨p, hpmem, hpin⟩ := List.any_eq_true.mp hany
            rw [Bool.and_eq_true, decide_eq_true_eq, decide_eq_true_eq] at hpin
            refine ⟨?_, ?_, Or.inr (Or.inr rfl)⟩
            · constructor
              · intro h
                exact absurd h (by decide)
              · intro h
                exact absurd h hm
            · constructor
              · intro _
                exact ⟨hm, t, rfl, p, hpmem, hpin.1, hpin.2⟩
              · intro _
                rfl
          · rw [if_neg hany]
            refine ⟨?_, ?_, Or.inr (Or.inl rfl)⟩
            · constructor
              · intro h
                exact absurd h (by decide)
              · intro h
                exact absurd h hm
            · constructor
              · intro h
                exact absurd h (by decide)
              · rintro ⟨-, t2, ht2, p, hpmem, hple, hpge⟩
                have ht2e : t2 = t := (Option.some.inj ht2).symm
                subst ht2e
                exfalso
                apply hany
                exact List.any_eq_true.mpr ⟨p, hpmem, by
                  rw [Bool.and_eq_true, decide_eq_true_eq, decide_eq_true_eq]
                  exact ⟨hple, hpge⟩⟩

/-- Witness for C9: one excluded diary row with a missing end time, one
timestamp inside the zero-width period and the metadata row at index 0. -/
theorem c9_maintenance_witness :
    ((∀ se : Int × Int, se ∈ load_maintenance_periods
        (fun s => if s = "d1" then some 100 else none) [⟨" Yes ", "d1", "zz"⟩] ↔
      ∃ row ∈ [(⟨" Yes ", "d1", "zz"⟩ : DiaryRow)], excludeYes row.exclude = true ∧
        (fun s => if s = "d1" then some (100 : Int) else none) row.startRaw = some se.1 ∧
        ((fun s => if s = "d1" then some (100 : Int) else none) row.endRaw = some se.2 ∨
          ((fun s => if s = "d1" then some (100 : Int) else none) row.endRaw = none ∧
            se.2 = se.1))) ∧
    ∀ i, i < ["meta", "d1"].length →
      (((flag_maintenance (fun s => if s = "d1" then some 100 else none) ["meta", "d1"]
          (load_maintenance_periods (fun s => if s = "d1" then some 100 else none)
            [⟨" Yes ", "d1", "zz"⟩]) (some 0)).getD i "" = "") ↔ some 0 = some i) ∧
      (((flag_maintenance (fun s => if s = "d1" then some 100 else none) ["meta", "d1"]
          (load_maintenance_periods (fun s => if s = "d1" then some 100 else none)
            [⟨" Yes ", "d1", "zz"⟩]) (some 0)).getD i "" = FAIL) ↔
        (some 0 ≠ some i ∧ ∃ t, (fun s => if s = "d1" then some (100 : Int) else none)
            (["meta", "d1"].getD i "") = some t ∧
          ∃ p ∈ load_maintenance_periods (fun s => if s = "d1" then some 100 else none)
            [⟨" Yes ", "d1", "zz"⟩], p.1 ≤ t ∧ t ≤ p.2)) ∧
      ((flag_maintenance (fun s => if s = "d1" then some 100 else none) ["meta", "d1"]
          (load_maintenance_periods (fun s => if s = "d1" then some 100 else none)
            [⟨" Yes ", "d1", "zz"⟩]) (some 0)).getD i "" = "" ∨
       (flag_maintenance (fun s => if s = "d1" then some 100 else none) ["meta", "d1"]
          (load_maintenance_periods (fun s => if s = "d1" then some 100 else none)
            [⟨" Yes ", "d1", "zz"⟩]) (some 0)).getD i "" = PASS ∨
       (flag_maintenance (fun s => if s = "d1" then some 100 else none) ["meta", "d1"]
          (load_maintenance_periods (fun s => if s = "d1" then some 100 else none)
            [⟨" Yes ", "d1", "zz"⟩]) (some 0)).getD i "" = FAIL)) :=
  c9_maintenance (fun s => if s = "d1" then some 100 else none) [⟨" Yes ", "d1", "zz"⟩]
    ["meta", "d1"] (some 0)

/-- Greedy assignment state of align_combined_rows (combiner.py lines 230-231):
the assigned primary indices (assigned_mask) and the assignment list in
processing order as (primary index, secondary index) pairs. -/
structure AlignSt where
  assigned : List Nat
  asg : List (Nat × Nat)
  deriving DecidableEq

/-- First index attaining the minimum of f over the list (pandas Series.idxmin
keeps the first occurrence on ties). -/
def argminFirst (f : Nat → Nat) : List Nat → Option Nat
  | [] => none
  | x :: xs => some (xs.foldl (fun b p => if f p < f b then p else b) x)

/-- Absolute time distance from secondary timestamp t to primary row p. -/
def distTo (obs : List Int) (t : Int) (p : Nat) : Nat := (obs.getD p 0 - t).natAbs

/-- One iteration of the secondary-row loop (combiner.py lines 233-242): gather
the currently unassigned primary rows in index order, pick the first
minimum-distance one, mark it taken and record the assignment. -/
def alignStep (obs : List Int) (st : AlignSt) (i : Nat) (t : Int) : AlignSt :=
  match argminFirst (distTo obs t)
      ((List.range obs.length).filter fun p => !st.assigned.contains p) with
  | none => st
  | some p => ⟨p :: st.assigned, st.asg ++ [(p, i)]⟩

/-- The secondary-row loop of align_combined_rows. The source breaks out of the
loop when no primary rows remain; since the available set never grows, the
break is modelled by identity steps. -/
def alignLoop (obs : List Int) : AlignSt → Nat → List Int → AlignSt
  | st, _, [] => st
  | st, i, t :: ts => alignLoop obs (alignStep obs st i t) (i + 1) ts

/-- The assignment list produced by align_combined_rows on the parsed primary
and secondary timestamp lists (both already filtered to valid timestamps and
in sorted order, as the caller guarantees). -/
def align_assignments (obs coli : List Int) : List (Nat × Nat) :=
  (alignLoop obs ⟨[], []⟩ 0 coli).asg

/-- The aligned table of align_combined_rows (combiner.py lines 249-262): one
row per primary row carrying the primary timestamp and the assigned secondary
row index if any, sorted by primary timestamp. -/
def align_combined_rows (obs coli : List Int) : List (Nat × Int × Option Nat) :=
  ((List.range obs.length).map fun p =>
    (p, obs.getD p 0,
      ((align_assignments obs coli).find? fun pr => pr.1 == p).map Prod.snd)).mergeSort
    fun a b => a.2.1 ≤ b.2.1

theorem foldl_min_spec {α : Type _} (f : α → Nat) (xs : List α) (b : α) :
    (xs.foldl (fun b p => if f p < f b then p else b) b = b ∨
      xs.foldl (fun b p => if f p < f b then p else b) b ∈ xs) ∧
    f (xs.foldl (fun b p => if f p < f b then p else b) b) ≤ f b ∧
    ∀ q ∈ xs, f (xs.foldl (fun b p => if f p < f b then p else b) b) ≤ f q := by
  induction xs generalizing b with
  | nil => exact ⟨Or.inl rfl, le_refl _, by simp⟩
  | cons y ys ih =>
    rw [List.foldl_cons]
    obtain ⟨hmem, hle, hall⟩ := ih (if f y < f b then y else b)
    have hle2 : f (ys.foldl (fun b p => if f p < f b then p else b)
        (if f y < f b then y else b)) ≤ f b := by
      refine le_trans hle ?_
      by_cases hc : f y < f b
      · rw [if_pos hc]; omega
      · rw [if_neg hc]
    have hley : f (ys.foldl (fun b p => if f p < f b then p else b)
        (if f y < f b then y else b)) ≤ f y := by
      refine le_trans hle ?_
      by_cases hc : f y < f b
      · rw [if_pos hc]
      · rw [if_neg hc]; omega
    refine ⟨?_, hle2, ?_⟩
    · rcases hmem with h | h
      · rw [h]
        by_cases hc : f y < f b
        · rw [if_pos hc] at h ⊢
          exact Or.inr (List.mem_cons_self y ys)
        · rw [if_neg hc] at h ⊢
          exact Or.inl rfl
      · exact Or.inr (List.mem_cons_of_mem y h)
    · intro q hq
      rcases List.mem_cons.mp hq with rfl | hq2
      · exact hley
      · exact hall q hq2

theorem argminFirst_spec (f : Nat → Nat) (l : List Nat) (p : Nat)
    (h : argminFirst f l = some p) : p ∈ l ∧ ∀ q ∈ l, f p ≤ f q := by
  cases l with
  | nil => exact absurd h (by simp [argminFirst])
  | cons x xs =>
    have hp : p = xs.foldl (fun b p => if f p < f b then p else b) x := by
      have := h
      unfold argminFirst at this
      exact (Option.some.inj this).symm
    obtain ⟨hmem, hle, hall⟩ := foldl_min_spec f xs x
    subst hp
    constructor
    · rcases hmem with he | hm
      · rw [he]; exact List.mem_cons_self x xs
      · exact List.mem_cons_of_mem x hm
    · intro q hq
      rcases List.mem_cons.mp hq with rfl | hq2
      · exact hle
      · exact hall q hq2

theorem argminFirst_nil_iff (f : Nat → Nat) (l : List Nat) :
    argminFirst f l = none ↔ l = [] := by
  cases l <;> simp [argminFirst]

theorem alignLoop_avail_nil (obs : List Int) (ts : List Int) (i : Nat) (st : AlignSt)
    (h : ((List.range obs.length).filter fun p => !st.assigned.contains p) = []) :
    alignLoop obs st i ts = st := by
  induction ts generalizing i with
  | nil => rfl
  | cons t rest ih =>
    have hstep : alignStep obs st i t = st := by
      unfold alignStep
      rw [h]
      rfl
    rw [alignLoop, hstep]
    exact ih (i + 1)

/-- Full behaviour of the greedy loop relative to an arbitrary start state:
the assignments extend the existing list by a block whose secondary indices
are consecutive, whose primary indices are fresh and pairwise distinct, and
each of whose assignments picks a nearest currently unassigned primary row. -/
theorem alignLoop_spec (obs : List Int) (ts : List Int) (i : Nat) (st : AlignSt) :
    ∃ new : List (Nat × Nat),
      (alignLoop obs st i ts).asg = st.asg ++ new ∧
      new.map Prod.snd = List.range' i new.length ∧
      (∀ q, q ∈ (alignLoop obs st i ts).assigned ↔
        q ∈ st.assigned ∨ q ∈ new.map Prod.fst) ∧
      (new.map Prod.fst).Nodup ∧
      (∀ q ∈ new.map Prod.fst, q ∉ st.assigned) ∧
      ∀ j, j < new.length →
        (new.getD j (0, 0)).1 < obs.length ∧
        ∀ q, q < obs.length → q ∉ st.assigned → q ∉ (new.take j).map Prod.fst →
          distTo obs (ts.getD j 0) (new.getD j (0, 0)).1 ≤
            distTo obs (ts.getD j 0) q := by
  induction ts generalizing i st with
  | nil =>
    refine ⟨[], by simp [alignLoop], by simp, by simp [alignLoop], by simp, by simp, ?_⟩
    intro j hj
    simp at hj
  | cons t rest ih =>
    rw [alignLoop]
    cases hmin : argminFirst (distTo obs t)
        ((List.range obs.length).filter fun p => !st.assigned.contains p) with
    | none =>
      have havail : ((List.range obs.length).filter fun p => !st.assigned.contains p) = [] :=
        (argminFirst_nil_iff _ _).mp hmin
      have hstep : alignStep obs st i t = st := by
        unfold alignStep
        rw [havail]
        rfl
      rw [hstep, alignLoop_avail_nil obs rest (i + 1) st havail]
      refine ⟨[], by simp, by simp, by simp, by simp, by simp, ?_⟩
      intro j hj
      simp at hj
    | some p =>
      have hstep : alignStep obs st i t = ⟨p :: st.assigned, st.asg ++ [(p, i)]⟩ := by
        unfold alignStep
        rw [hmin]
      obtain ⟨hpavail, hpmin⟩ := argminFirst_spec _ _ p hmin
      have hpavail2 : p < obs.length ∧ p ∉ st.assigned := by
        obtain ⟨h1, h2⟩ := List.mem_filter.mp hpavail
        constructor
        · exact List.mem_range.mp h1
        · simpa using h2
      have havailq : ∀ q, q < obs.length → q ∉ st.assigned →
          q ∈ (List.range obs.length).filter fun p => !st.assigned.contains p := by
        intro q h1 h2
        apply List.mem_filter.mpr
        exact ⟨List.mem_range.mpr h1, by simpa using h2⟩
      rw [hstep]
      obtain ⟨new2, hasg, hsnd, hassigned, hnodup, hfresh, hmin2⟩ :=
        ih (i + 1) ⟨p :: st.assigned, st.asg ++ [(p, i)]⟩
      refine ⟨(p, i) :: new2, ?_, ?_, ?_, ?_, ?_, ?_⟩
      · rw [hasg]
        simp
      · simp only [List.map_cons, hsnd, List.length_cons, List.range'_succ]
      · intro q
        rw [hassigned q]
        simp only [List.mem_cons, List.map_cons]
        constructor
        · rintro ((rfl | h) | h)
          · right; left; rfl
          · left; exact h
          · right; right; exact h
        · rintro (h | (rfl | h))
          · exact Or.inl (Or.inr h)
          · exact Or.inl (Or.inl rfl)
          · exact Or.inr h
      · simp only [List.map_cons, List.nodup_cons]
        refine ⟨?_, hnodup⟩
        intro hc
        have := hfresh p hc
        simp at this
      · intro q hq
        simp only [List.map_cons, List.mem_cons] at hq
        rcases hq with rfl | hq2
        · exact hpavail2.2
        · intro hc
          exact hfresh q hq2 (List.mem_cons_of_mem p hc)
      · intro j hj
        cases j with
        | zero =>
          refine ⟨hpavail2.1, ?_⟩
          intro q hql hqa hqt0
          exact hpmin q (havailq q hql hqa)
        | succ k =>
          have hk : k < new2.length := by simpa using hj
          obtain ⟨h1, h2⟩ := hmin2 k hk
          refine ⟨by simpa using h1, ?_⟩
          intro q hql hqa hqt
          have hqa2 : q ∉ (⟨p :: st.assigned, st.asg ++ [(p, i)]⟩ : AlignSt).assigned := by
            simp only [List.mem_cons]
            push_neg
            constructor
            · intro hc
              subst hc
              exact hqt (by simp [List.take_succ_cons])
            · exact hqa
          have hqt2 : q ∉ (new2.take k).map Prod.fst := by
            intro hc
            apply hqt
            simp only [List.take_succ_cons, List.map_cons, List.mem_cons]
            right
            exact hc
          have := h2 q hql hqa2 hqt2
          simpa [List.getD_cons_succ] using this

/-- C2: the greedy combination-mode matcher assigns each secondary row (in
iteration order) to the currently unassigned primary row of minimum absolute
time distance (first index on ties), never revisits an assigned primary row,
assigns every secondary row to at most one primary row, and the aligned output
contains every primary row exactly once. -/
theorem c2_greedy_alignment (obs coli : List Int) :
    ((align_assignments obs coli).map Prod.fst).Nodup ∧
    (align_assignments obs coli).map Prod.snd =
      List.range (align_assignments obs coli).length ∧
    (∀ k, k < (align_assignments obs coli).length →
      ((align_assignments obs coli).getD k (0, 0)).1 < obs.length ∧
      ∀ q, q < obs.length →
        q ∉ ((align_assignments obs coli).take k).map Prod.fst →
        distTo obs (coli.getD k 0) ((align_assignments obs coli).getD k (0, 0)).1 ≤
          distTo obs (coli.getD k 0) q) ∧
    ((align_combined_rows obs coli).map fun r => r.1).Perm (List.range obs.length) := by
  obtain ⟨new, hasg, hsnd, -, hnodup, -, hmin⟩ := alignLoop_spec obs coli 0 ⟨[], []⟩
  have hA : align_assignments obs coli = new := by
    unfold align_assignments
    rw [hasg]
    simp
  refine ⟨?_, ?_, ?_, ?_⟩
  · rw [hA]; exact hnodup
  · rw [hA, hsnd, List.range_eq_range']
  · intro k hk
    rw [hA] at hk ⊢
    obtain ⟨h1, h2⟩ := hmin k hk
    refine ⟨h1, ?_⟩
    intro q hql hqt
    have hsndk : (new.getD k (0, 0)).2 = k := by
      have : new.map Prod.snd = List.range' 0 new.length := hsnd
      have hg := getD_map_of_lt Prod.snd new (0, 0) 0 k hk
      rw [this] at hg
      rw [← hg, List.getD_eq_getElem _ _ (by simpa using hk)]
      simp [List.getElem_range']
    exact h2 q hql (by simp) hqt
  · have hperm : List.Perm (align_combined_rows obs coli)
        ((List.range obs.length).map fun p =>
          (p, obs.getD p 0,
            ((align_assignments obs coli).find? fun pr => pr.1 == p).map Prod.snd)) :=
      List.mergeSort_perm _ _
    have hmap := hperm.map fun r : Nat × Int × Option Nat => r.1
    refine hmap.trans ?_
    rw [List.map_map]
    have : ((fun r : Nat × Int × Option Nat => r.1) ∘ fun p =>
        ((p, obs.getD p 0,
          ((align_assignments obs coli).find? fun pr => pr.1 == p).map Prod.snd) :
            Nat × Int × Option Nat)) = id := by
      funext p
      rfl
    rw [this, List.map_id]

/-- Witness for C2 at the spec scenario of section 8: primary rows at 0, 300
and 600 seconds, one secondary row at 240 seconds, assigned to the nearest
primary row (index 1). -/
theorem c2_greedy_alignment_witness :
    ((align_assignments [0, 300, 600] [240]).map Prod.fst).Nodup ∧
    (align_assignments [0, 300, 600] [240]).map Prod.snd =
      List.range (align_assignments [0, 300, 600] [240]).length ∧
    (∀ k, k < (align_assignments [0, 300, 600] [240]).length →
      ((align_assignments [0, 300, 600] [240]).getD k (0, 0)).1 < [0, 300, 600].length ∧
      ∀ q, q < [0, 300, 600].length →
        q ∉ ((align_assignments [0, 300, 600] [240]).take k).map Prod.fst →
        distTo [0, 300, 600] ([240].getD k 0)
            ((align_assignments [0, 300, 600] [240]).getD k (0, 0)).1 ≤
          distTo [0, 300, 600] ([240].getD k 0) q) ∧
    ((align_combined_rows [0, 300, 600] [240]).map fun r => r.1).Perm
      (List.range [0, 300, 600].length) :=
  c2_greedy_alignment [0, 300, 600] [240]

/-- A secondary (Coliminder) candidate row of the single-file injection merge:
its UID-derived timestamp and the activity and sample number texts
(coliminder_merge.py lines 246-264). -/
structure SecRow where
  ts : Int
  activity : String
  sample : String
  deriving DecidableEq

/-- The two dicts of the injection loop: per target index the best distance
seen so far and the assigned secondary row. -/
structure InjSt where
  diffs : List (Nat × Nat)
  assigns : List (Nat × SecRow)
  deriving DecidableEq

/-- Python dict assignment: replace the value of the first matching key in
place, append when absent. -/
def updateAssoc {α β : Type _} [DecidableEq α] (l : List (α × β)) (k : α) (v : β) :
    List (α × β) :=
  match l with
  | [] => [(k, v)]
  | kv :: rest => if kv.1 = k then (k, v) :: rest else kv :: updateAssoc rest k v

theorem lookup_updateAssoc_self {α β : Type _} [DecidableEq α]
    (l : List (α × β)) (k : α) (v : β) : (updateAssoc l k v).lookup k = some v := by
  induction l with
  | nil => simp [updateAssoc, List.lookup]
  | cons kv rest ih =>
    unfold updateAssoc
    by_cases h : kv.1 = k
    · rw [if_pos h]
      simp [List.lookup]
    · rw [if_neg h]
      simp only [List.lookup]
      rw [show (k == kv.1) = false from beq_eq_false_iff_ne.mpr (Ne.symm h)]
      exact ih

theorem lookup_updateAssoc_ne {α β : Type _} [DecidableEq α]
    (l : List (α × β)) (k : α) (v : β) (j : α) (hj : j ≠ k) :
    (updateAssoc l k v).lookup j = l.lookup j := by
  induction l with
  | nil => simp [updateAssoc, List.lookup, beq_eq_false_iff_ne.mpr hj]
  | cons kv rest ih =>
    unfold updateAssoc
    by_cases h : kv.1 = k
    · rw [if_pos h]
      simp only [List.lookup]
      rw [show (j == k) = false from beq_eq_false_iff_ne.mpr hj,
        show (j == kv.1) = false from beq_eq_false_iff_ne.mpr (h ▸ hj)]
    · rw [if_neg h]
      simp only [List.lookup]
      cases hjk : j == kv.1 with
      | true => rfl
      | false => exact ih

/-- pandas idxmin over the candidate series (index, timestamp), first minimum
on ties, with the loop distance function. -/
def argminPair (f : Int → Nat) : List (Nat × Int) → Option (Nat × Int)
  | [] => none
  | x :: xs => some (xs.foldl (fun b p => if f p.2 < f b.2 then p else b) x)

theorem argminPair_spec (f : Int → Nat) (l : List (Nat × Int)) (x : Nat × Int)
    (h : argminPair f l = some x) : x ∈ l ∧ ∀ q ∈ l, f x.2 ≤ f q.2 := by
  cases l with
  | nil => exact absurd h (by simp [argminPair])
  | cons y ys =>
    have hx : x = ys.foldl (fun b p => if f p.2 < f b.2 then p else b) y := by
      have := h
      unfold argminPair at this
      exact (Option.some.inj this).symm
    obtain ⟨hmem, hle, hall⟩ := foldl_min_spec (fun p => f p.2) ys y
    subst hx
    constructor
    · rcases hmem with he | hm
      · rw [he]; exact List.mem_cons_self y ys
      · exact List.mem_cons_of_mem y hm
    · intro q hq
      rcases List.mem_cons.mp hq with rfl | hq2
      · exact hle
      · exact hall q hq2

/-- The conflict resolution of the injection assignment loop
(coliminder_merge.py lines 257-264): skip when the target already holds an
assignment at a distance not larger than the new one; otherwise record the new
distance and assignment in both dicts. -/
def injApply (st : InjSt) (i : Nat) (d : Nat) (r : SecRow) : InjSt :=
  match st.diffs.lookup i with
  | some d0 =>
    if d ≥ d0 then st
    else ⟨updateAssoc st.diffs i d, updateAssoc st.assigns i r⟩
  | none => ⟨updateAssoc st.diffs i d, updateAssoc st.assigns i r⟩

/-- One iteration of the injection assignment loop (coliminder_merge.py lines
248-264): find the nearest candidate primary row (first minimum on ties) and
apply the best-of conflict resolution there. -/
def injStep (cands : List (Nat × Int)) (st : InjSt) (r : SecRow) : InjSt :=
  match argminPair (fun τ => (τ - r.ts).natAbs) cands with
  | none => st
  | some it => injApply st it.1 (it.2 - r.ts).natAbs r

/-- The whole injection assignment loop over the in-range secondary rows. -/
def inj_assignments (cands : List (Nat × Int)) (rows : List SecRow) : InjSt :=
  rows.foldl (injStep cands) ⟨[], []⟩

theorem lookup_of_nodup_mem {β : Type _} (l : List (Nat × β)) (k : Nat) (v : β)
    (hnd : (l.map Prod.fst).Nodup) (hmem : (k, v) ∈ l) : l.lookup k = some v := by
  induction l with
  | nil => simp at hmem
  | cons kv rest ih =>
    rcases List.mem_cons.mp hmem with rfl | hm
    · simp [List.lookup]
    · have hk : k ≠ kv.1 := by
        intro hc
        have h1 : kv.1 ∈ rest.map Prod.fst := by
          rw [← hc]
          exact List.mem_map_of_mem Prod.fst hm
        have h2 : kv.1 ∉ rest.map Prod.fst := by
          have := hnd
          simp only [List.map_cons, List.nodup_cons] at this
          exact this.1
        exact h2 h1
      simp only [List.lookup, beq_eq_false_iff_ne.mpr hk]
      exact ih (by
        have := hnd
        simp only [List.map_cons, List.nodup_cons] at this
        exact this.2) hm

/-- The dict invariant of the injection loop: a target is assigned iff it has a
recorded distance, and the recorded distance is the distance from the assigned
secondary row to the target candidate timestamp. -/
def InjInv (cands : List (Nat × Int)) (st : InjSt) : Prop :=
  ∀ i, (st.diffs.lookup i = none ∧ st.assigns.lookup i = none) ∨
    (∃ a τ, st.assigns.lookup i = some a ∧ cands.lookup i = some τ ∧
      st.diffs.lookup i = some ((τ - a.ts).natAbs))

theorem injApply_update_inv (cands : List (Nat × Int)) (st : InjSt)
    (hinv : InjInv cands st) (i : Nat) (τ : Int) (r : SecRow)
    (hlook : cands.lookup i = some τ) :
    InjInv cands ⟨updateAssoc st.diffs i (τ - r.ts).natAbs,
      updateAssoc st.assigns i r⟩ := by
  intro j
  by_cases hji : j = i
  · subst hji
    right
    exact ⟨r, τ, lookup_updateAssoc_self _ _ _, hlook, lookup_updateAssoc_self _ _ _⟩
  · have h1 := lookup_updateAssoc_ne st.diffs i (τ - r.ts).natAbs j hji
    have h2 := lookup_updateAssoc_ne st.assigns i r j hji
    rcases hinv j with ⟨ha, hb⟩ | ⟨a, τ2, ha, hb, hc⟩
    · left
      rw [h1, h2]
      exact ⟨ha, hb⟩
    · right
      exact ⟨a, τ2, h2 ▸ ha, hb, h1 ▸ hc⟩

theorem injApply_of_none (st : InjSt) (i : Nat) (d : Nat) (r : SecRow)
    (hd : st.diffs.lookup i = none) :
    injApply st i d r = ⟨updateAssoc st.diffs i d, updateAssoc st.assigns i r⟩ := by
  unfold injApply
  rw [hd]

theorem injApply_of_ge (st : InjSt) (i : Nat) (d : Nat) (r : SecRow) (d0 : Nat)
    (hd : st.diffs.lookup i = some d0) (hge : d ≥ d0) : injApply st i d r = st := by
  unfold injApply
  rw [hd]
  show (if d ≥ d0 then st
    else ⟨updateAssoc st.diffs i d, updateAssoc st.assigns i r⟩) = st
  rw [if_pos hge]

theorem injApply_of_lt (st : InjSt) (i : Nat) (d : Nat) (r : SecRow) (d0 : Nat)
    (hd : st.diffs.lookup i = some d0) (hlt : ¬d ≥ d0) :
    injApply st i d r = ⟨updateAssoc st.diffs i d, updateAssoc st.assigns i r⟩ := by
  unfold injApply
  rw [hd]
  show (if d ≥ d0 then st
    else ⟨updateAssoc st.diffs i d, updateAssoc st.assigns i r⟩) =
    (⟨updateAssoc st.diffs i d, updateAssoc st.assigns i r⟩ : InjSt)
  rw [if_neg hlt]

theorem injStep_of_min (cands : List (Nat × Int)) (st : InjSt) (r : SecRow)
    (it : Nat × Int) (hmin : argminPair (fun τ => (τ - r.ts).natAbs) cands = some it) :
    injStep cands st r = injApply st it.1 (it.2 - r.ts).natAbs r := by
  unfold injStep
  rw [hmin]

theorem injStep_inv (cands : List (Nat × Int)) (hnd : (cands.map Prod.fst).Nodup)
    (st : InjSt) (hinv : InjInv cands st) (r : SecRow) :
    InjInv cands (injStep cands st r) := by
  cases hmin : argminPair (fun τ => (τ - r.ts).natAbs) cands with
  | none =>
    have h : injStep cands st r = st := by
      unfold injStep
      rw [hmin]
    rw [h]
    exact hinv
  | some it =>
    obtain ⟨hmem, -⟩ := argminPair_spec _ _ _ hmin
    have hlook : cands.lookup it.1 = some it.2 :=
      lookup_of_nodup_mem cands it.1 it.2 hnd hmem
    rw [injStep_of_min cands st r it hmin]
    cases hd : st.diffs.lookup it.1 with
    | none =>
      rw [injApply_of_none st it.1 _ r hd]
      exact injApply_update_inv cands st hinv it.1 it.2 r hlook
    | some d0 =>
      by_cases hge : (it.2 - r.ts).natAbs ≥ d0
      · rw [injApply_of_ge st it.1 _ r d0 hd hge]
        exact hinv
      · rw [injApply_of_lt st it.1 _ r d0 hd hge]
        exact injApply_update_inv cands st hinv it.1 it.2 r hlook

theorem inj_assignments_inv (cands : List (Nat × Int))
    (hnd : (cands.map Prod.fst).Nodup) (rows : List SecRow) :
    InjInv cands (inj_assignments cands rows) := by
  unfold inj_assignments
  have hgen : ∀ (rs : List SecRow) (st : InjSt), InjInv cands st →
      InjInv cands (rs.foldl (injStep cands) st) := by
    intro rs
    induction rs with
    | nil => intro st h; exact h
    | cons r rest ih =>
      intro st h
      exact ih _ (injStep_inv cands hnd st h r)
  exact hgen rows ⟨[], []⟩ (fun i => Or.inl ⟨rfl, rfl⟩)

/-- C6: in single-file injection mode, when a secondary row targets primary
row i (the nearest candidate, first index on ties), the assignment kept at i
is the better of the current one and the new row: the new row replaces an
earlier assignment exactly when its absolute time distance to i is strictly
smaller, a fresh target is always assigned, and no other target changes. -/
theorem c6_injection_best_of (cands : List (Nat × Int)) (rows : List SecRow)
    (r : SecRow) (hnd : (cands.map Prod.fst).Nodup) (i : Nat) (τ : Int)
    (hmin : argminPair (fun τ => (τ - r.ts).natAbs) cands = some (i, τ)) :
    ((i, τ) ∈ cands ∧ ∀ q ∈ cands, (τ - r.ts).natAbs ≤ (q.2 - r.ts).natAbs) ∧
    ((injStep cands (inj_assignments cands rows) r).assigns.lookup i =
      (match (inj_assignments cands rows).assigns.lookup i with
       | none => some r
       | some a =>
         if (τ - r.ts).natAbs < (τ - a.ts).natAbs then some r else some a)) ∧
    (∀ j, j ≠ i → (injStep cands (inj_assignments cands rows) r).assigns.lookup j =
      (inj_assignments cands rows).assigns.lookup j) := by
  obtain ⟨hmem, hminall⟩ := argminPair_spec _ _ _ hmin
  have hinv := inj_assignments_inv cands hnd rows
  have hlook : cands.lookup i = some τ := lookup_of_nodup_mem cands i τ hnd hmem
  have hstep : injStep cands (inj_assignments cands rows) r =
      injApply (inj_assignments cands rows) i (τ - r.ts).natAbs r :=
    injStep_of_min cands _ r (i, τ) hmin
  rw [hstep]
  refine ⟨⟨hmem, hminall⟩, ?_, ?_⟩
  · rcases hinv i with ⟨hd, ha⟩ | ⟨a, τ2, ha, hb, hc⟩
    · rw [injApply_of_none _ i _ r hd, ha]
      exact lookup_updateAssoc_self _ _ _
    · have hτ : τ = τ2 := Option.some.inj (hlook.symm.trans hb)
      subst hτ
      rw [ha]
      by_cases hge : (τ - r.ts).natAbs ≥ (τ - a.ts).natAbs
      · rw [injApply_of_ge _ i _ r _ hc hge, ha]
        show some a = if (τ - r.ts).natAbs < (τ - a.ts).natAbs then some r else some a
        rw [if_neg (by omega)]
      · rw [injApply_of_lt _ i _ r _ hc hge]
        show (updateAssoc (inj_assignments cands rows).assigns i r).lookup i =
          if (τ - r.ts).natAbs < (τ - a.ts).natAbs then some r else some a
        rw [if_pos (by omega)]
        exact lookup_updateAssoc_self _ _ _
  · intro j hj
    rcases hinv i with ⟨hd, -⟩ | ⟨a, τ2, -, -, hc⟩
    · rw [injApply_of_none _ i _ r hd]
      exact lookup_updateAssoc_ne _ _ _ j hj
    · by_cases hge : (τ - r.ts).natAbs ≥ (τ2 - a.ts).natAbs
      · rw [injApply_of_ge _ i _ r _ hc hge]
      · rw [injApply_of_lt _ i _ r _ hc hge]
        exact lookup_updateAssoc_ne _ _ _ j hj

/-- Witness for C6 at the spec scenario of section 8: candidates at 0 and 300
seconds, a first secondary row at 240 already assigned to index 1, a second
secondary row at 270 closer to 300 overrides it. -/
theorem c6_injection_best_of_witness :
    (([(0, 0), (1, 300)] : List (Nat × Int)).map Prod.fst).Nodup ∧
    argminPair (fun τ => (τ - (270 : Int)).natAbs) [(0, 0), (1, 300)] = some (1, 300) ∧
    ((((1, (300 : Int)) ∈ ([(0, 0), (1, 300)] : List (Nat × Int)) ∧
      ∀ q ∈ ([(0, 0), (1, 300)] : List (Nat × Int)),
        ((300 : Int) - 270).natAbs ≤ (q.2 - 270).natAbs) ∧
    ((injStep [(0, 0), (1, 300)]
        (inj_assignments [(0, 0), (1, 300)] [⟨240, "5", "1"⟩]) ⟨270, "7", "2"⟩).assigns.lookup 1 =
      (match (inj_assignments [(0, 0), (1, 300)] [⟨240, "5", "1"⟩]).assigns.lookup 1 with
       | none => some ⟨270, "7", "2"⟩
       | some a =>
         if ((300 : Int) - 270).natAbs < ((300 : Int) - a.ts).natAbs
         then some ⟨270, "7", "2"⟩ else some a)) ∧
    (∀ j, j ≠ 1 → (injStep [(0, 0), (1, 300)]
        (inj_assignments [(0, 0), (1, 300)] [⟨240, "5", "1"⟩]) ⟨270, "7", "2"⟩).assigns.lookup j =
      (inj_assignments [(0, 0), (1, 300)] [⟨240, "5", "1"⟩]).assigns.lookup j))) :=
  ⟨by decide, by decide,
    c6_injection_best_of [(0, 0), (1, 300)] [⟨240, "5", "1"⟩] ⟨270, "7", "2"⟩
      (by decide) 1 300 (by decide)⟩

/-- Column constants of coliminder_merge.py (lines 12-35). -/
def MICROFLU : String := "microFlu_TRP"

def SIGNAL_STRENGTH : String := "Signal strength"

def PRIMARY_ALIGNMENT_COLUMNS : List String :=
  ["BGA PC RFU", "BGA PC ug/L", "Chlorophyll RFU", "Chlorophyll ug/L",
   "Cond uS/cm", "fDOM QSU", "fDOM RFU", "pH", "SpCond uS/cm", "Temp C", "Turbidity"]

def COLIMINDER_TS : String := "Timestamp (UTC)"

def COLI_ACTIVITY : String := "Activity"

def COLI_SAMPLE : String := "Sample Numb."

/-- _non_empty_mask on one cell (coliminder_merge.py lines 67-68): the
stripped text is not empty. -/
def nonEmptyCell (s : String) : Bool := stripChars s.data != []

/-- Parsed timestamp of row i of the table (pandas to_datetime with dayfirst,
modelled by the parse parameter). -/
def obsTime (parse : String → Option Int) (tsCol : String) (t : Table) (i : Nat) :
    Option Int :=
  parse (lookupCell (t.rows.getD i []) tsCol)

/-- _primary_alignment_mask at row i (coliminder_merge.py lines 71-78): some
present primary measurement column is non-empty (false when none of the
primary columns is present). -/
def primaryRowMask (t : Table) (i : Nat) : Bool :=
  (PRIMARY_ALIGNMENT_COLUMNS.filter fun c => t.cols.contains c).any
    fun c => nonEmptyCell (lookupCell (t.rows.getD i []) c)

/-- Replace the value of column c in a row (pandas df.at assignment). -/
def setCell (r : Row) (c : String) (v : String) : Row :=
  r.map fun kv => if kv.1 = c then (kv.1, v) else kv

def setCellAt (t : Table) (i : Nat) (c : String) (v : String) : Table :=
  { t with rows := t.rows.set i (setCell (t.rows.getD i []) c v) }

/-- One step of the best_sources construction (coliminder_merge.py lines
105-117): for a stray microFlu source row, find the nearest primary row and
keep the source of smallest distance per target (first insertion keeps dict
position). -/
def bestSourcesStep (parse : String → Option Int) (tsCol : String) (t : Table)
    (primaryIndices : List Nat) (acc : List (Nat × Nat × Nat)) (srcIdx : Nat) :
    List (Nat × Nat × Nat) :=
  match obsTime parse tsCol t srcIdx with
  | none => acc
  | some stime =>
    match argminFirst (fun p => ((obsTime parse tsCol t p).getD 0 - stime).natAbs)
        primaryIndices with
    | none => acc
    | some target =>
      let d := ((obsTime parse tsCol t target).getD 0 - stime).natAbs
      match acc.lookup target with
      | some sd => if d < sd.2 then updateAssoc acc target (srcIdx, d) else acc
      | none => updateAssoc acc target (srcIdx, d)

/-- One move of the relocation loop (coliminder_merge.py lines 119-127): skip
when source and target coincide or the target already holds a microFlu value;
otherwise move the value and record the donor. -/
def applyMove (st : Table × List Nat) (tm : Nat × Nat × Nat) : Table × List Nat :=
  if tm.2.1 = tm.1 then st
  else if nonEmptyCell (lookupCell (st.1.rows.getD tm.1 []) MICROFLU) then st
  else
    let v := lookupCell (st.1.rows.getD tm.2.1 []) MICROFLU
    let t2 := setCellAt st.1 tm.1 MICROFLU v
    let t3 := setCellAt t2 tm.2.1 MICROFLU ""
    (t3, st.2 ++ [tm.2.1])

/-- The donor emptiness loop (coliminder_merge.py lines 134-144): the
timestamp column and microFlu_TRP are skipped; a non-empty signal-strength
cell sets the flag and continues, any other non-empty cell sets the flag and
breaks; both forms amount to the same disjunction over the remaining columns. -/
def rowHasOtherData (tsCol : String) (row : Row) : List String → Bool
  | [] => false
  | c :: cs =>
    if c = tsCol ∨ c = MICROFLU then rowHasOtherData tsCol row cs
    else if c = SIGNAL_STRENGTH then
      (if nonEmptyCell (lookupCell row c) then true else rowHasOtherData tsCol row cs)
    else
      (if nonEmptyCell (lookupCell row c) then true else rowHasOtherData tsCol row cs)

/-- The donor rows dropped after relocation (coliminder_merge.py lines
132-146): the moved sources that carry no other data. -/
def microfluDropIndices (tsCol : String) (t2 : Table) (moved : List Nat) : List Nat :=
  moved.filter fun idx => !rowHasOtherData tsCol (t2.rows.getD idx []) t2.cols

/-- df.drop(index=...) followed by reset_index on positional indices. -/
def dropRows (t : Table) (drop : List Nat) : Table :=
  { t with rows := (t.rows.enum.filter fun p => !drop.contains p.1).map Prod.snd }

/-- _align_microflu_rows_to_primary_measurements (coliminder_merge.py lines
81-154), returning the resulting table together with the moved donor rows and
the dropped donor rows. -/
def align_microflu (parse : String → Option Int) (tsCol : String) (t : Table) :
    Table × List Nat × List Nat :=
  if MICROFLU ∈ t.cols then
    if (List.range t.rows.length).any
        (fun i => (obsTime parse tsCol t i).isSome) then
      let primaryIndices := (List.range t.rows.length).filter fun i =>
        primaryRowMask t i && (obsTime parse tsCol t i).isSome
      if primaryIndices.isEmpty then (t, [], [])
      else
        let sourceIndices := (List.range t.rows.length).filter fun i =>
          nonEmptyCell (lookupCell (t.rows.getD i []) MICROFLU) &&
          (obsTime parse tsCol t i).isSome &&
          !(primaryRowMask t i && (obsTime parse tsCol t i).isSome)
        if sourceIndices.isEmpty then (t, [], [])
        else
          let best := sourceIndices.foldl (bestSourcesStep parse tsCol t primaryIndices) []
          let moved := best.foldl applyMove (t, [])
          if moved.2.isEmpty then (moved.1, moved.2, [])
          else
            let dropIdx := microfluDropIndices tsCol moved.1 moved.2
            (if dropIdx.isEmpty then moved.1 else dropRows moved.1 dropIdx,
              moved.2, dropIdx)
    else (t, [], [])
  else (t, [], [])

theorem rowHasOtherData_iff (tsCol : String) (row : Row) (cols : List String) :
    rowHasOtherData tsCol row cols = true ↔
      ∃ c ∈ cols, ¬(c = tsCol ∨ c = MICROFLU) ∧
        nonEmptyCell (lookupCell row c) = true := by
  induction cols with
  | nil => simp [rowHasOtherData]
  | cons c cs ih =>
    unfold rowHasOtherData
    by_cases hskip : c = tsCol ∨ c = MICROFLU
    · rw [if_pos hskip, ih]
      constructor
      · rintro ⟨c2, hc2, hn, he⟩
        exact ⟨c2, List.mem_cons_of_mem c hc2, hn, he⟩
      · rintro ⟨c2, hc2, hn, he⟩
        rcases List.mem_cons.mp hc2 with rfl | hm
        · exact absurd hskip hn
        · exact ⟨c2, hm, hn, he⟩
    · rw [if_neg hskip]
      have hcommon : (if nonEmptyCell (lookupCell row c) then true
          else rowHasOtherData tsCol row cs) = true ↔
          ∃ c2 ∈ c :: cs, ¬(c2 = tsCol ∨ c2 = MICROFLU) ∧
            nonEmptyCell (lookupCell row c2) = true := by
        by_cases hne : nonEmptyCell (lookupCell row c) = true
        · rw [if_pos hne]
          simp only [true_iff]
          exact ⟨c, List.mem_cons_self c cs, hskip, hne⟩
        · rw [if_neg hne, ih]
          constructor
          · rintro ⟨c2, hc2, hn, he⟩
            exact ⟨c2, List.mem_cons_of_mem c hc2, hn, he⟩
          · rintro ⟨c2, hc2, hn, he⟩
            rcases List.mem_cons.mp hc2 with rfl | hm
            · exact absurd he hne
            · exact ⟨c2, hm, hn, he⟩
      by_cases hsig : c = SIGNAL_STRENGTH
      · rw [if_pos hsig]
        exact hcommon
      · rw [if_neg hsig]
        exact hcommon

/-- C7 (amended): after relocation, a donor row is dropped exactly when every
column other than the timestamp column and the relocated microFlu_TRP column
is empty in it; the signal-strength column is NOT excluded from this emptiness
test (a donor whose only remaining data is signal strength is kept). -/
theorem c7_donor_drop_amended (tsCol : String) (t2 : Table) (moved : List Nat)
    (idx : Nat) :
    idx ∈ microfluDropIndices tsCol t2 moved ↔
      idx ∈ moved ∧ ∀ c ∈ t2.cols, c ≠ tsCol → c ≠ MICROFLU →
        nonEmptyCell (lookupCell (t2.rows.getD idx []) c) = false := by
  unfold microfluDropIndices
  rw [List.mem_filter]
  constructor
  · rintro ⟨hm, hflag⟩
    refine ⟨hm, ?_⟩
    intro c hc h1 h2
    by_contra hne
    have hne2 : nonEmptyCell (lookupCell (t2.rows.getD idx []) c) = true := by
      cases h : nonEmptyCell (lookupCell (t2.rows.getD idx []) c)
      · exact absurd h hne
      · rfl
    have : rowHasOtherData tsCol (t2.rows.getD idx []) t2.cols = true :=
      (rowHasOtherData_iff _ _ _).mpr ⟨c, hc, by tauto, hne2⟩
    rw [this] at hflag
    exact absurd hflag (by decide)
  · rintro ⟨hm, hall⟩
    refine ⟨hm, ?_⟩
    cases h : rowHasOtherData tsCol (t2.rows.getD idx []) t2.cols
    · rfl
    · obtain ⟨c, hc, hn, he⟩ := (rowHasOtherData_iff _ _ _).mp h
      rw [hall c hc (fun hx => hn (Or.inl hx)) (fun hx => hn (Or.inr hx))] at he
      exact absurd he (by decide)

/-- Concrete input refuting C7 as stated: donor row 1 has its microFlu value
relocated to primary row 0 and afterwards carries data only in the
signal-strength column. -/
def c7parse : String → Option Int :=
  fun s => if s = "1" then some 1 else if s = "2" then some 2 else none

def c7table : Table :=
  ⟨["TimeStamp", "BGA PC RFU", "microFlu_TRP", "Signal strength"],
   [[("TimeStamp", "1"), ("BGA PC RFU", "5"), ("microFlu_TRP", ""),
     ("Signal strength", "")],
    [("TimeStamp", "2"), ("BGA PC RFU", ""), ("microFlu_TRP", "9"),
     ("Signal strength", "42")]]⟩

/-- Counterexample to C7 as stated: the donor row (index 1) is moved, carries
no non-empty data outside the timestamp, microFlu and signal-strength columns,
yet it is not dropped (the code counts the non-empty signal-strength cell as
other data and keeps the row). -/
theorem c7_donor_drop_counterexample :
    (align_microflu c7parse "TimeStamp" c7table).2.1 = [1] ∧
    (align_microflu c7parse "TimeStamp" c7table).2.2 = [] ∧
    (align_microflu c7parse "TimeStamp" c7table).1.rows.length = 2 ∧
    (align_microflu c7parse "TimeStamp" c7table).1.rows.getD 1 [] =
      [("TimeStamp", "2"), ("BGA PC RFU", ""), ("microFlu_TRP", ""),
       ("Signal strength", "42")] ∧
    (∀ c ∈ c7table.cols, c ≠ "TimeStamp" → c ≠ MICROFLU → c ≠ SIGNAL_STRENGTH →
      nonEmptyCell (lookupCell
        ((align_microflu c7parse "TimeStamp" c7table).1.rows.getD 1 []) c) = false) := by
  decide

/-- Witness for the amended C7 at a concrete moved donor row that still holds
signal-strength data. -/
theorem c7_donor_drop_amended_witness :
    1 ∈ microfluDropIndices "TimeStamp" c7table [1] ↔
      1 ∈ [1] ∧ ∀ c ∈ c7table.cols, c ≠ "TimeStamp" → c ≠ MICROFLU →
        nonEmptyCell (lookupCell (c7table.rows.getD 1 []) c) = false :=
  c7_donor_drop_amended "TimeStamp" c7table [1] 1

/-- The timestamp column candidates of _find_timestamp_column
(coliminder_merge.py lines 38-50), first present name wins. -/
def findTimestampColumn (cols : List String) : Option String :=
  ["TimeStamp", "Timestamp", "Time", "Time (UTC)", "Timestamp (UTC)", "Time_UTC"].find?
    fun c => cols.contains c

/-- Add one injected column when absent, with empty cells
(coliminder_merge.py lines 180-182). -/
def addColumn (t : Table) (c : String) : Table :=
  if c ∈ t.cols then t
  else { cols := t.cols ++ [c], rows := t.rows.map fun r => r ++ [(c, "")] }

def addNewColumns (t : Table) (cs : List String) : Table := cs.foldl addColumn t

/-- _write_with_order (coliminder_merge.py lines 275-278): reorder to the
original columns without the injected ones, followed by the injected columns,
projecting each row onto that column list. -/
def writeWithOrder (t : Table) (originalCols newCols : List String) : Table :=
  { cols := (originalCols.filter fun c => !newCols.contains c) ++ newCols,
    rows := t.rows.map fun r =>
      ((originalCols.filter fun c => !newCols.contains c) ++ newCols).map
        fun c => (c, lookupCell r c) }

/-- merge_coliminder_into_file specialized to coliminder_path = None
(coliminder_merge.py lines 157-207): add the three injected columns, find the
timestamp column, run the microFlu relocation, and on every path taken before
any Coliminder data is read, write the table and report that no rows were
merged. The two branches after the relocation (no valid timestamps, and the
None check itself) produce the same output here; the candidate selection of
lines 198-202 has no effect before the None return. -/
def merge_coliminder_none (parse : String → Option Int) (obs : Table) : Table × Bool :=
  let df := addNewColumns obs [COLIMINDER_TS, COLI_ACTIVITY, COLI_SAMPLE]
  match findTimestampColumn df.cols with
  | none => (writeWithOrder df obs.cols [COLIMINDER_TS, COLI_ACTIVITY, COLI_SAMPLE], false)
  | some tsCol =>
    let df2 := (align_microflu parse tsCol df).1
    if (List.range df2.rows.length).all (fun i => (obsTime parse tsCol df2 i).isNone) then
      (writeWithOrder df2 obs.cols [COLIMINDER_TS, COLI_ACTIVITY, COLI_SAMPLE], false)
    else
      (writeWithOrder df2 obs.cols [COLIMINDER_TS, COLI_ACTIVITY, COLI_SAMPLE], false)

theorem lookupCell_setCell_ne (r : Row) (c c2 : String) (v : String) (h : c ≠ c2) :
    lookupCell (setCell r c2 v) c = lookupCell r c := by
  unfold lookupCell setCell
  induction r with
  | nil => rfl
  | cons kv rest ih =>
    simp only [List.map_cons]
    by_cases hk : kv.1 = c2
    · rw [if_pos hk]
      simp only [List.lookup]
      rw [show (c == kv.1) = false from beq_eq_false_iff_ne.mpr (hk ▸ h)]
      exact ih
    · rw [if_neg hk]
      simp only [List.lookup]
      cases hck : c == kv.1
      · exact ih
      · rfl

theorem lookup_append_single (r : Row) (c c2 : String) (v : String) :
    (r ++ [(c2, v)]).lookup c =
      (match r.lookup c with
       | some w => some w
       | none => if c = c2 then some v else none) := by
  induction r with
  | nil =>
    simp only [List.nil_append, List.lookup]
    by_cases hc : c = c2
    · rw [show (c == c2) = true from beq_iff_eq.mpr hc, if_pos hc]
    · rw [show (c == c2) = false from beq_eq_false_iff_ne.mpr hc, if_neg hc]
  | cons kv rest ih =>
    simp only [List.cons_append, List.lookup]
    cases hck : c == kv.1
    · exact ih
    · rfl

/-- Projection of a row onto a column list keeps the looked-up values of
member columns. -/
theorem lookupCell_projection (cols : List String) (r : Row) (c : String)
    (hc : c ∈ cols) :
    lookupCell (cols.map fun c2 => (c2, lookupCell r c2)) c = lookupCell r c := by
  induction cols with
  | nil => simp at hc
  | cons c2 rest ih =>
    simp only [List.map_cons]
    unfold lookupCell
    simp only [List.lookup]
    by_cases hcc : c = c2
    · rw [show (c == c2) = true from beq_iff_eq.mpr hcc]
      simp only [Option.getD_some]
      rw [hcc]
    · rw [show (c == c2) = false from beq_eq_false_iff_ne.mpr hcc]
      have hc2 : c ∈ rest := by
        rcases List.mem_cons.mp hc with h | h
        · exact absurd h hcc
        · exact h
      exact ih hc2

/-- The three injected columns stay empty in a row set: the per-row emptiness
invariant threaded through the merge pipeline. -/
def RowsQ (t : Table) : Prop :=
  ∀ r ∈ t.rows, ∀ c ∈ [COLIMINDER_TS, COLI_ACTIVITY, COLI_SAMPLE], lookupCell r c = ""

theorem RowsQ_setCellAt (t : Table) (i : Nat) (v : String) (h : RowsQ t) :
    RowsQ (setCellAt t i MICROFLU v) := by
  intro r hr c hc
  have hbase : ∀ c2 ∈ [COLIMINDER_TS, COLI_ACTIVITY, COLI_SAMPLE],
      lookupCell (t.rows.getD i []) c2 = "" := by
    intro c2 hc2
    by_cases hlen : i < t.rows.length
    · exact h (t.rows.getD i []) (List.getD_eq_getElem t.rows [] hlen ▸
        (t.rows.getElem_mem hlen)) c2 hc2
    · rw [List.getD_eq_default t.rows [] (by omega)]
      rfl
  have hcm : c ≠ MICROFLU := by
    simp only [List.mem_cons, List.mem_singleton] at hc
    rcases hc with rfl | rfl | hc
    · decide
    · decide
    · simp only [List.not_mem_nil, or_false] at hc
      subst hc
      decide
  rcases List.mem_or_eq_of_mem_set hr with hmem | heq
  · exact h r hmem c hc
  · rw [heq, lookupCell_setCell_ne _ _ _ _ hcm]
    exact hbase c hc

theorem RowsQ_applyMove (st : Table × List Nat) (h : RowsQ st.1) (tm : Nat × Nat × Nat) :
    RowsQ (applyMove st tm).1 := by
  unfold applyMove
  by_cases h1 : tm.2.1 = tm.1
  · rw [if_pos h1]
    exact h
  · rw [if_neg h1]
    by_cases h2 : nonEmptyCell (lookupCell (st.1.rows.getD tm.1 []) MICROFLU) = true
    · rw [if_pos h2]
      exact h
    · rw [if_neg h2]
      exact RowsQ_setCellAt _ _ _ (RowsQ_setCellAt _ _ _ h)

theorem RowsQ_foldl_applyMove (best : List (Nat × Nat × Nat)) :
    ∀ st : Table × List Nat, RowsQ st.1 → RowsQ (best.foldl applyMove st).1 := by
  induction best with
  | nil => intro st h; exact h
  | cons tm rest ih =>
    intro st h
    exact ih (applyMove st tm) (RowsQ_applyMove st h tm)

theorem RowsQ_dropRows (t : Table) (drop : List Nat) (h : RowsQ t) :
    RowsQ (dropRows t drop) := by
  intro r hr
  unfold dropRows at hr
  simp only [List.mem_map] at hr
  obtain ⟨p, hp, rfl⟩ := hr
  have hpmem : p ∈ t.rows.enum := (List.mem_filter.mp hp).1
  have : p.2 ∈ t.rows.enum.map Prod.snd := List.mem_map_of_mem Prod.snd hpmem
  rw [List.enum_map_snd] at this
  exact h p.2 this

theorem cols_setCellAt (t : Table) (i : Nat) (c v : String) :
    (setCellAt t i c v).cols = t.cols := rfl

theorem cols_applyMove (st : Table × List Nat) (tm : Nat × Nat × Nat) :
    (applyMove st tm).1.cols = st.1.cols := by
  unfold applyMove
  by_cases h1 : tm.2.1 = tm.1
  · rw [if_pos h1]
  · rw [if_neg h1]
    by_cases h2 : nonEmptyCell (lookupCell (st.1.rows.getD tm.1 []) MICROFLU) = true
    · rw [if_pos h2]
    · rw [if_neg h2]
      rfl

theorem cols_dropRows (t : Table) (drop : List Nat) :
    (dropRows t drop).cols = t.cols := rfl

theorem cols_foldl_applyMove (best : List (Nat × Nat × Nat)) :
    ∀ st : Table × List Nat, (best.foldl applyMove st).1.cols = st.1.cols := by
  induction best with
  | nil => intro st; rfl
  | cons tm rest ih =>
    intro st
    rw [List.foldl_cons, ih (applyMove st tm), cols_applyMove]

theorem align_microflu_cols (parse : String → Option Int) (tsCol : String) (t : Table) :
    (align_microflu parse tsCol t).1.cols = t.cols := by
  unfold align_microflu
  dsimp only
  split
  · split
    · split
      · rfl
      · split
        · rfl
        · split
          · exact cols_foldl_applyMove _ _
          · split
            · exact cols_foldl_applyMove _ _
            · exact (cols_dropRows _ _).trans (cols_foldl_applyMove _ _)
    · rfl
  · rfl

theorem RowsQ_align_microflu (parse : String → Option Int) (tsCol : String)
    (t : Table) (h : RowsQ t) : RowsQ (align_microflu parse tsCol t).1 := by
  unfold align_microflu
  dsimp only
  split
  · split
    · split
      · exact h
      · split
        · exact h
        · split
          · exact RowsQ_foldl_applyMove _ _ h
          · split
            · exact RowsQ_foldl_applyMove _ _ h
            · exact RowsQ_dropRows _ _ (RowsQ_foldl_applyMove _ _ h)
    · exact h
  · exact h

theorem lookup_three_appends (r0 : Row)
    (h1 : r0.lookup COLIMINDER_TS = none) (h2 : r0.lookup COLI_ACTIVITY = none)
    (h3 : r0.lookup COLI_SAMPLE = none) :
    ∀ c ∈ [COLIMINDER_TS, COLI_ACTIVITY, COLI_SAMPLE],
      lookupCell (((r0 ++ [(COLIMINDER_TS, "")]) ++ [(COLI_ACTIVITY, "")]) ++
        [(COLI_SAMPLE, "")]) c = "" := by
  intro c hc
  unfold lookupCell
  simp only [List.mem_cons, List.mem_singleton, List.not_mem_nil, or_false] at hc
  rcases hc with rfl | rfl | rfl
  · rw [lookup_append_single, lookup_append_single, lookup_append_single, h1]
    rfl
  · rw [lookup_append_single, lookup_append_single, lookup_append_single, h2]
    rfl
  · rw [lookup_append_single, lookup_append_single, lookup_append_single, h3]
    rfl

/-- C10: with no Coliminder file, the injection merge still writes the primary
table, reports that no rows were merged, and the three injected columns are
present in the output but entirely empty. The hypotheses state that the input
table does not already carry the injected column names. -/
theorem c10_no_coliminder (parse : String → Option Int) (obs : Table)
    (hnotin : ∀ c ∈ [COLIMINDER_TS, COLI_ACTIVITY, COLI_SAMPLE], c ∉ obs.cols)
    (hrows : ∀ r ∈ obs.rows, ∀ c ∈ [COLIMINDER_TS, COLI_ACTIVITY, COLI_SAMPLE],
      r.lookup c = none) :
    (merge_coliminder_none parse obs).2 = false ∧
    (∀ c ∈ [COLIMINDER_TS, COLI_ACTIVITY, COLI_SAMPLE],
      c ∈ (merge_coliminder_none parse obs).1.cols) ∧
    (∀ r ∈ (merge_coliminder_none parse obs).1.rows,
      ∀ c ∈ [COLIMINDER_TS, COLI_ACTIVITY, COLI_SAMPLE], lookupCell r c = "") := by
  have hts : COLIMINDER_TS ∉ obs.cols := hnotin _ (by simp)
  have hact : COLI_ACTIVITY ∉ obs.cols := hnotin _ (by simp)
  have hsmp : COLI_SAMPLE ∉ obs.cols := hnotin _ (by simp)
  -- the table after adding the three injected columns
  have hadd1 : addColumn obs COLIMINDER_TS =
      { cols := obs.cols ++ [COLIMINDER_TS],
        rows := obs.rows.map fun r => r ++ [(COLIMINDER_TS, "")] } := by
    unfold addColumn
    rw [if_neg hts]
  have hact1 : COLI_ACTIVITY ∉ obs.cols ++ [COLIMINDER_TS] := by
    simp only [List.mem_append, List.mem_singleton]
    push_neg
    exact ⟨hact, by decide⟩
  have hadd2 : addColumn (addColumn obs COLIMINDER_TS) COLI_ACTIVITY =
      { cols := (obs.cols ++ [COLIMINDER_TS]) ++ [COLI_ACTIVITY],
        rows := (obs.rows.map fun r => r ++ [(COLIMINDER_TS, "")]).map
          fun r => r ++ [(COLI_ACTIVITY, "")] } := by
    rw [hadd1]
    unfold addColumn
    rw [if_neg hact1]
  have hsmp1 : COLI_SAMPLE ∉ (obs.cols ++ [COLIMINDER_TS]) ++ [COLI_ACTIVITY] := by
    simp only [List.mem_append, List.mem_singleton]
    push_neg
    exact ⟨⟨hsmp, by decide⟩, by decide⟩
  have hadd3 : addNewColumns obs [COLIMINDER_TS, COLI_ACTIVITY, COLI_SAMPLE] =
      { cols := ((obs.cols ++ [COLIMINDER_TS]) ++ [COLI_ACTIVITY]) ++ [COLI_SAMPLE],
        rows := ((obs.rows.map fun r => r ++ [(COLIMINDER_TS, "")]).map
          fun r => r ++ [(COLI_ACTIVITY, "")]).map
            fun r => r ++ [(COLI_SAMPLE, "")] } := by
    show addColumn (addColumn (addColumn obs COLIMINDER_TS) COLI_ACTIVITY) COLI_SAMPLE = _
    rw [hadd2]
    unfold addColumn
    rw [if_neg hsmp1]
  have hdfQ : RowsQ (addNewColumns obs [COLIMINDER_TS, COLI_ACTIVITY, COLI_SAMPLE]) := by
    rw [hadd3]
    intro r hr
    simp only [List.mem_map] at hr
    obtain ⟨r2, ⟨r1, ⟨r0, hr0, rfl⟩, rfl⟩, rfl⟩ := hr
    exact lookup_three_appends r0 (hrows r0 hr0 _ (by simp)) (hrows r0 hr0 _ (by simp))
      (hrows r0 hr0 _ (by simp))
  -- the written output always keeps the injected columns empty
  have hwrite : ∀ t2 : Table, RowsQ t2 →
      ((∀ c ∈ [COLIMINDER_TS, COLI_ACTIVITY, COLI_SAMPLE],
        c ∈ (writeWithOrder t2 obs.cols [COLIMINDER_TS, COLI_ACTIVITY, COLI_SAMPLE]).cols) ∧
      ∀ r ∈ (writeWithOrder t2 obs.cols [COLIMINDER_TS, COLI_ACTIVITY, COLI_SAMPLE]).rows,
        ∀ c ∈ [COLIMINDER_TS, COLI_ACTIVITY, COLI_SAMPLE], lookupCell r c = "") := by
    intro t2 hQ
    constructor
    · intro c hc
      unfold writeWithOrder
      simp only [List.mem_append]
      exact Or.inr hc
    · intro r hr c hc
      unfold writeWithOrder at hr
      simp only [List.mem_map] at hr
      obtain ⟨r0, hr0, rfl⟩ := hr
      rw [lookupCell_projection _ r0 c (by
        simp only [List.mem_append]
        exact Or.inr hc)]
      exact hQ r0 hr0 c hc
  unfold merge_coliminder_none
  dsimp only
  cases hfind : findTimestampColumn
      (addNewColumns obs [COLIMINDER_TS, COLI_ACTIVITY, COLI_SAMPLE]).cols with
  | none =>
    obtain ⟨hcols, hrows2⟩ := hwrite _ hdfQ
    exact ⟨rfl, hcols, hrows2⟩
  | some tsCol =>
    have hQ2 : RowsQ (align_microflu parse tsCol
        (addNewColumns obs [COLIMINDER_TS, COLI_ACTIVITY, COLI_SAMPLE])).1 :=
      RowsQ_align_microflu parse tsCol _ hdfQ
    obtain ⟨hcols, hrows2⟩ := hwrite _ hQ2
    dsimp only
    split
    · exact ⟨rfl, hcols, hrows2⟩
    · exact ⟨rfl, hcols, hrows2⟩

/-- Witness for C10 on a concrete two-column primary table. -/
theorem c10_no_coliminder_witness :
    (∀ c ∈ [COLIMINDER_TS, COLI_ACTIVITY, COLI_SAMPLE],
      c ∉ (Table.mk ["TimeStamp", "BGA PC RFU"]
        [[("TimeStamp", "t1"), ("BGA PC RFU", "5")]]).cols) ∧
    (∀ r ∈ (Table.mk ["TimeStamp", "BGA PC RFU"]
        [[("TimeStamp", "t1"), ("BGA PC RFU", "5")]]).rows,
      ∀ c ∈ [COLIMINDER_TS, COLI_ACTIVITY, COLI_SAMPLE], r.lookup c = none) ∧
    ((merge_coliminder_none (fun _ => none) (Table.mk ["TimeStamp", "BGA PC RFU"]
        [[("TimeStamp", "t1"), ("BGA PC RFU", "5")]])).2 = false ∧
    (∀ c ∈ [COLIMINDER_TS, COLI_ACTIVITY, COLI_SAMPLE],
      c ∈ (merge_coliminder_none (fun _ => none) (Table.mk ["TimeStamp", "BGA PC RFU"]
        [[("TimeStamp", "t1"), ("BGA PC RFU", "5")]])).1.cols) ∧
    (∀ r ∈ (merge_coliminder_none (fun _ => none) (Table.mk ["TimeStamp", "BGA PC RFU"]
        [[("TimeStamp", "t1"), ("BGA PC RFU", "5")]])).1.rows,
      ∀ c ∈ [COLIMINDER_TS, COLI_ACTIVITY, COLI_SAMPLE], lookupCell r c = "")) :=
  ⟨by decide, by decide,
    c10_no_coliminder (fun _ => none)
      (Table.mk ["TimeStamp", "BGA PC RFU"] [[("TimeStamp", "t1"), ("BGA PC RFU", "5")]])
      (by decide) (by decide)⟩

end UrbanSplash
